import Mathlib

/-!
Shallow embedding of the kode_orch background-task orchestration core:

* `BgTaskRunner` (src/kode_orch/src/orchestrator/bg-task-runner.ts) — task
  records, the pending priority queue, dispatch (`drainQueue`), cancellation,
  run termination (the tail of `runWithSandbox` including its `finally`
  block), the watchdog event handlers, the pause-loop, and the chat
  re-entry paths (`chat` / `chatAsync` / `runChatInBackground`).
* `InjectionQueue` message builders (src/kode_orch/src/orchestrator/
  injection-queue.ts) — modelled as a list of enqueued items.
* The `bg_task_retry` tool (src/kode_orch/src/tools/bg-task-run.ts).
* `ChatLock` (src/kode_orch/src/orchestrator/chat-lock.ts) — with an
  explicit microtask queue so that promise-resolution scheduling is visible.
* The safe-command policy (src/kode_orch/src/orchestrator/safe-commands.ts)
  — a small executable regex engine interprets the `DANGEROUS_PATTERNS`
  regexes, `extractCommand` runs over an explicit JavaScript-value type.

Wall-clock fields of the TypeScript code (`startTime`, `lastActivityTime`,
timer handles, sandbox lifetime) are not represented: the claims under
study do not mention them and real time has no shallow embedding.  The
`interrupt` calls on sub-agents are requests to an external agent runtime
and have no effect on the runner's own state; they are likewise omitted.
-/

namespace KodeOrch

/-! ## Task data model (bg-task-runner.ts lines 8-59) -/

/-- `status` field of a `BgTask` (bg-task-runner.ts line 26). -/
inductive TaskStatus where
  | queued
  | running
  | completed
  | failed
  | cancelled
deriving DecidableEq, Repr

/-- `TaskPriority` (bg-task-runner.ts line 8). -/
inductive TaskPriority where
  | high
  | normal
  | low
deriving DecidableEq, Repr

/-- `PRIORITY_ORDER` (bg-task-runner.ts line 59): high = 0, normal = 1, low = 2. -/
def PRIORITY_ORDER : TaskPriority → Nat
  | .high => 0
  | .normal => 1
  | .low => 2

/-- `ResourceLimits` (bg-task-runner.ts lines 10-14); every field is optional
in TypeScript, hence `Option Nat`. -/
structure ResourceLimits where
  maxToolCalls : Option Nat
  maxSteps : Option Nat
  idleTimeoutMs : Option Nat
deriving DecidableEq, Repr

/-- `ResourceUsage` (bg-task-runner.ts lines 16-20). -/
structure ResourceUsage where
  toolCalls : Nat
  steps : Nat
  totalTokens : Nat
deriving DecidableEq, Repr

/-- `BgTask` (bg-task-runner.ts lines 22-43).  Task ids are modelled as the
natural numbers handed out by a counter, which doubles as the creation
(enqueue) order; `generateId` in the source returns opaque unique strings.
Wall-clock fields and the sandbox-preview fields are omitted (see module
comment); `agentAlive` starts absent (undefined, falsy) which is modelled
as `false`. -/
structure BgTask where
  id : Nat
  templateId : String
  description : String
  status : TaskStatus
  priority : TaskPriority
  prompt : String
  skills : List String
  retryCount : Nat
  redoHistory : List String
  resourceLimits : ResourceLimits
  resourceUsage : ResourceUsage
  result : Option String
  error : Option String
  cancelReason : Option String
  agentAlive : Bool
deriving DecidableEq, Repr

/-- Metadata `type` of an `InjectionItem` (injection-queue.ts line 474). -/
inductive InjectionType where
  | task_result
  | task_failed
  | task_cancelled
  | chat_result
  | chat_failed
deriving DecidableEq, Repr

/-- `InjectionItem` (injection-queue.ts lines 472-475). -/
structure InjectionItem where
  message : String
  taskId : Nat
  itype : InjectionType
deriving DecidableEq, Repr

/-! ## InjectionQueue message builders (injection-queue.ts lines 470-615) -/

/-- `MAX_RESULT_LENGTH` (injection-queue.ts line 470). -/
def MAX_RESULT_LENGTH : Nat := 4000

/-- JavaScript `a || b` for an optional string `a`: the default is used when
`a` is absent (undefined) or empty (falsy). -/
def jsOrElse (o : Option String) (d : String) : String :=
  match o with
  | some r => if r = "" then d else r
  | none => d

/-- Truncation of an over-long result (injection-queue.ts lines 577-579 and
608-610).  `String.take` counts code points where JavaScript `slice` counts
UTF-16 units; they agree on all text without astral-plane characters. -/
def truncateResult (r : String) : String :=
  if r.length > MAX_RESULT_LENGTH then
    String.mk (r.data.take MAX_RESULT_LENGTH) ++ "\n\n[内容已截断，完整结果可通过 bg_task_status 查看]"
  else r

/-- `InjectionQueue.buildMessage` (injection-queue.ts lines 566-592). -/
def buildMessage (task : BgTask) : String :=
  if task.status = .completed then
    "[子任务完成] taskId=" ++ toString task.id ++ ", agent=" ++ task.templateId ++
      "\n描述: " ++ task.description ++
      "\n交付物:\n" ++ truncateResult (jsOrElse task.result "(无输出)")
  else if task.status = .cancelled then
    "[子任务已取消] taskId=" ++ toString task.id ++ ", agent=" ++ task.templateId ++
      "\n描述: " ++ task.description ++
      "\n原因: " ++ jsOrElse task.cancelReason "由编排器取消"
  else
    "[子任务失败] taskId=" ++ toString task.id ++ ", agent=" ++ task.templateId ++
      "\n描述: " ++ task.description ++
      "\n错误: " ++ jsOrElse task.error "未知错误"

/-- `InjectionQueue.buildChatMessage` (injection-queue.ts lines 597-614). -/
def buildChatMessage (task : BgTask) (response : Option String) (error : Option String) : String :=
  match error with
  | some e =>
    "[子任务对话失败] taskId=" ++ toString task.id ++ ", agent=" ++ task.templateId ++
      "\n描述: " ++ task.description ++
      "\n错误: " ++ e
  | none =>
    "[子任务对话回复] taskId=" ++ toString task.id ++ ", agent=" ++ task.templateId ++
      "\n描述: " ++ task.description ++
      "\n回复:\n" ++ truncateResult (jsOrElse response "(无输出)")

/-! ## Runner state

The mutable state of a `BgTaskRunner` instance (bg-task-runner.ts lines
61-89).  The `tasks` map is a list with unique ids; `pendingQueue` stores
`(task id, priority)` pairs — the source stores references to the task
objects, whose `priority` is immutable after creation.  `injections` is
`some queue` once `setInjectionQueue` has wired an `InjectionQueue` (the
item list models its `queue` field), `none` before.  `agents` is the key
set of the `agents` map of live sub-agent instances. -/

structure RunnerState where
  tasks : List BgTask
  pendingQueue : List (Nat × TaskPriority)
  pendingMessages : List (Nat × String)
  injections : Option (List InjectionItem)
  agents : List Nat
  nextId : Nat
  maxConcurrent : Nat
  defaultIdleTimeoutMs : Nat
  defaultMaxToolCalls : Nat
  defaultMaxSteps : Nat
deriving DecidableEq, Repr

/-- Fresh runner with an injection queue wired (constructor, lines 77-89,
followed by `setInjectionQueue`, lines 91-93).  The defaults 5 / 120000 /
200 / 50 of the constructor are supplied by `initState'` below. -/
def initState (maxConcurrent defaultIdleTimeoutMs defaultMaxToolCalls defaultMaxSteps : Nat) :
    RunnerState :=
  { tasks := []
    pendingQueue := []
    pendingMessages := []
    injections := some []
    agents := []
    nextId := 0
    maxConcurrent := maxConcurrent
    defaultIdleTimeoutMs := defaultIdleTimeoutMs
    defaultMaxToolCalls := defaultMaxToolCalls
    defaultMaxSteps := defaultMaxSteps }

/-- Runner with the constructor defaults (`taskConfig` absent,
bg-task-runner.ts lines 85-88). -/
def initStateDefault : RunnerState := initState 5 120000 200 50

/-- `this.tasks.get(id)` — first entry with the given id. -/
def getTask (s : RunnerState) (id : Nat) : Option BgTask :=
  s.tasks.find? (fun t => t.id == id)

/-- Update the first task with the given id in a task list (a JavaScript
`Map` holds at most one entry per key, and every mutation of a task object
in the source is visible through the map). -/
def updateFirst (l : List BgTask) (id : Nat) (f : BgTask → BgTask) : List BgTask :=
  match l with
  | [] => []
  | t :: ts => if t.id == id then f t :: ts else t :: updateFirst ts id f

/-- In-place mutation of the task with the given id. -/
def updateTask (s : RunnerState) (id : Nat) (f : BgTask → BgTask) : RunnerState :=
  { s with tasks := updateFirst s.tasks id f }

/-- `runningCount` (bg-task-runner.ts lines 140-146). -/
def runningCount (s : RunnerState) : Nat :=
  s.tasks.countP (fun t => t.status == .running)

/-- Enqueue an injection item for a task (the `injectionQueue.enqueue`
calls; a no-op when no injection queue has been wired, matching the
`if (this.injectionQueue)` guards). -/
def enqueueInjection (s : RunnerState) (id : Nat) (msg : String) (ty : InjectionType) :
    RunnerState :=
  match s.injections with
  | none => s
  | some q => { s with injections := some (q ++ [⟨msg, id, ty⟩]) }

/-! ## Priority sort (bg-task-runner.ts line 124)

`this.pendingQueue.sort((a, b) => PRIORITY_ORDER[a] - PRIORITY_ORDER[b])`
is a stable ascending sort by priority rank (`Array.prototype.sort` is
stable).  A stable sort by a totally ordered key has a unique result, so
the insertion sort below (which inserts each element before the first
strictly-later element of greater-or-equal rank) computes exactly it. -/

/-- Stable insertion of a queue entry: the entry goes before the first
existing entry of greater-or-equal priority rank (the entry being inserted
is the one that occurred earlier in the pre-sort list). -/
def insertByPrio (x : Nat × TaskPriority) : List (Nat × TaskPriority) → List (Nat × TaskPriority)
  | [] => [x]
  | y :: ys =>
    if PRIORITY_ORDER x.2 ≤ PRIORITY_ORDER y.2 then x :: y :: ys
    else y :: insertByPrio x ys

/-- Stable sort by priority rank. -/
def sortByPrio : List (Nat × TaskPriority) → List (Nat × TaskPriority)
  | [] => []
  | x :: xs => insertByPrio x (sortByPrio xs)

/-! ## Dispatch (bg-task-runner.ts lines 95-151) -/

/-- Effect of dispatching one queued task (`drainQueue` loop body, lines
131-136, plus the `agents.set` of the launched `runWithSandbox`, line 173):
the task's status flips to running and a live sub-agent is registered. -/
def dispatch (s : RunnerState) (id : Nat) : RunnerState :=
  let s := updateTask s id (fun t => { t with status := .running })
  { s with agents := s.agents ++ [id] }

/-- The `drainQueue` loop body with an explicit iteration bound: every
iteration shifts exactly one element off the pending list and never adds
one, so the initial list length bounds the iteration count and the
bounded loop computes exactly the source's `while` loop. -/
def drainGo : Nat → RunnerState → RunnerState
  | 0, s => s
  | fuel + 1, s =>
    if runningCount s < s.maxConcurrent then
      match s.pendingQueue with
      | [] => s
      | q :: rest => drainGo fuel (dispatch { s with pendingQueue := rest } q.1)
    else s

/-- `drainQueue` (bg-task-runner.ts lines 129-138): while capacity remains
and the pending list is non-empty, shift the head and dispatch it. -/
def drainQueue (s : RunnerState) : RunnerState :=
  drainGo s.pendingQueue.length s

/-- Optional `opts` argument of `start` (bg-task-runner.ts line 99). -/
structure StartOpts where
  priority : Option TaskPriority
  limits : Option ResourceLimits
  skills : Option (List String)
  retryCount : Option Nat
  redoHistory : Option (List String)
deriving DecidableEq, Repr

/-- `start` (bg-task-runner.ts lines 95-127): create the task record with
defaulted fields, append it to the tasks map and the pending list, re-sort
the pending list by priority (stable), drain, and return the new id. -/
def startTask (s : RunnerState) (templateId prompt description : String)
    (opts : Option StartOpts) : Nat × RunnerState :=
  let id := s.nextId
  let task : BgTask :=
    { id := id
      templateId := templateId
      description := description
      status := .queued
      priority := (opts.bind (fun o => o.priority)).getD .normal
      prompt := prompt
      skills := (opts.bind (fun o => o.skills)).getD []
      retryCount := (opts.bind (fun o => o.retryCount)).getD 0
      redoHistory := (opts.bind (fun o => o.redoHistory)).getD []
      resourceLimits :=
        { maxToolCalls :=
            some (((opts.bind (fun o => o.limits)).bind (fun l => l.maxToolCalls)).getD
              s.defaultMaxToolCalls)
          maxSteps :=
            some (((opts.bind (fun o => o.limits)).bind (fun l => l.maxSteps)).getD
              s.defaultMaxSteps)
          idleTimeoutMs := (opts.bind (fun o => o.limits)).bind (fun l => l.idleTimeoutMs) }
      resourceUsage := ⟨0, 0, 0⟩
      result := none
      error := none
      cancelReason := none
      agentAlive := false }
  let s := { s with tasks := s.tasks ++ [task], nextId := id + 1 }
  let s := { s with pendingQueue := sortByPrio (s.pendingQueue ++ [(id, task.priority)]) }
  (id, drainQueue s)

/-! ## Cancellation (bg-task-runner.ts lines 361-395) -/

/-- Does a list of queue entries mention a task id? -/
def queueHasId (q : List (Nat × TaskPriority)) (id : Nat) : Bool :=
  q.any (fun p => p.1 == id)

/-- `cancel` (bg-task-runner.ts lines 361-395).  Returns the boolean result
together with the new state.  The interrupt sent to a running sub-agent is
a request to the external runtime and has no state effect; the pause-loop
later observes the cancelled status. -/
def cancel (s : RunnerState) (taskId : Nat) (reason : Option String) :
    Bool × RunnerState :=
  match getTask s taskId with
  | none => (false, s)
  | some task =>
    if task.status = .queued then
      let s := { s with pendingQueue := s.pendingQueue.filter (fun q => q.1 != taskId) }
      let s := updateTask s taskId (fun t => { t with status := .cancelled, cancelReason := reason })
      let s :=
        match getTask s taskId with
        | some t => enqueueInjection s taskId (buildMessage t) .task_cancelled
        | none => s
      (true, s)
    else if task.status ≠ .running then (false, s)
    else
      (true, updateTask s taskId (fun t => { t with status := .cancelled, cancelReason := reason }))

/-! ## Watchdog handlers (bg-task-runner.ts lines 183-359) -/

/-- Render an optional limit the way a JavaScript template literal renders
a possibly-undefined number. -/
def optNatToString (o : Option Nat) : String :=
  match o with
  | some n => toString n
  | none => "undefined"

/-- `handleResourceLimit` (bg-task-runner.ts lines 343-359): if the task is
still running, mark it failed with the descriptive error and interrupt the
sub-agent (the interrupt itself is external). -/
def handleResourceLimit (s : RunnerState) (taskId : Nat) (limitType : String) : RunnerState :=
  match getTask s taskId with
  | none => s
  | some task =>
    if task.status ≠ .running then s
    else
      updateTask s taskId (fun t =>
        { t with
          status := .failed
          error := some ("资源超限：" ++ limitType ++ " (" ++
            (if limitType = "maxToolCalls" then toString t.resourceUsage.toolCalls
             else toString t.resourceUsage.steps) ++ "/" ++
            (if limitType = "maxToolCalls" then optNatToString t.resourceLimits.maxToolCalls
             else optNatToString t.resourceLimits.maxSteps) ++ ")") })

/-- The `tool_executed` monitor handler of the main run (bg-task-runner.ts
lines 194-201): increment `toolCalls`; when the (truthy, i.e. set and
non-zero) `maxToolCalls` limit is reached, invoke `handleResourceLimit`. -/
def toolExecutedMain (s : RunnerState) (taskId : Nat) : RunnerState :=
  let s := updateTask s taskId (fun t =>
    { t with resourceUsage := { t.resourceUsage with toolCalls := t.resourceUsage.toolCalls + 1 } })
  match getTask s taskId with
  | none => s
  | some t =>
    match t.resourceLimits.maxToolCalls with
    | some m => if m ≠ 0 ∧ t.resourceUsage.toolCalls ≥ m then handleResourceLimit s taskId "maxToolCalls" else s
    | none => s

/-- The `step_complete` monitor handler of the main run (bg-task-runner.ts
lines 203-210). -/
def stepCompleteMain (s : RunnerState) (taskId : Nat) : RunnerState :=
  let s := updateTask s taskId (fun t =>
    { t with resourceUsage := { t.resourceUsage with steps := t.resourceUsage.steps + 1 } })
  match getTask s taskId with
  | none => s
  | some t =>
    match t.resourceLimits.maxSteps with
    | some m => if m ≠ 0 ∧ t.resourceUsage.steps ≥ m then handleResourceLimit s taskId "maxSteps" else s
    | none => s

/-- The `token_usage` monitor handler of the main run (bg-task-runner.ts
lines 212-216). -/
def tokenUsageMain (s : RunnerState) (taskId : Nat) (delta : Nat) : RunnerState :=
  updateTask s taskId (fun t =>
    { t with resourceUsage := { t.resourceUsage with totalTokens := t.resourceUsage.totalTokens + delta } })

/-- `handleIdleTimeout` (bg-task-runner.ts lines 323-341). -/
def handleIdleTimeout (s : RunnerState) (taskId : Nat) : RunnerState :=
  match getTask s taskId with
  | none => s
  | some task =>
    if task.status ≠ .running then s
    else
      let timeoutMs := task.resourceLimits.idleTimeoutMs.getD s.defaultIdleTimeoutMs
      let timeoutSec := (timeoutMs + 500) / 1000
      updateTask s taskId (fun t =>
        { t with status := .failed, error := some ("空闲超时：" ++ toString timeoutSec ++ "s 无任何输出") })

/-! ## Run termination (bg-task-runner.ts lines 222-321) -/

/-- Result of one `agent.complete(input)` call (the sub-agent runtime
contract).  `ok` carries the final text; `paused` means the agent paused
for an interrupt. -/
inductive CompleteStatus where
  | ok (text : String)
  | paused
deriving DecidableEq, Repr

/-- Outcome of the whole `try` body of `runWithSandbox`: either the
pause-loop ended with a result, or `complete` (or setup) threw. -/
inductive RunOutcome where
  | finished (text : String)
  | threw (msg : String)
deriving DecidableEq, Repr

/-- Lines 241-259 of `runWithSandbox`: after the pause-loop (or in the
catch branch) set completed / failed, but only if the task was not
already cancelled or failed. -/
def finishStatus (s : RunnerState) (taskId : Nat) (outcome : RunOutcome) : RunnerState :=
  match outcome with
  | .finished text =>
    updateTask s taskId (fun t =>
      if t.status ≠ .cancelled ∧ t.status ≠ .failed then
        { t with status := .completed, result := some text }
      else t)
  | .threw msg =>
    updateTask s taskId (fun t =>
      if t.status ≠ .cancelled ∧ t.status ≠ .failed then
        { t with status := .failed, error := some msg }
      else t)

/-- Lines 270-281 of the `finally` block: keep the agent alive only for
completed tasks; otherwise drop the agent instance. -/
def finishKeepAlive (s : RunnerState) (taskId : Nat) : RunnerState :=
  match getTask s taskId with
  | some t =>
    if t.status = TaskStatus.completed then
      updateTask s taskId (fun u => { u with agentAlive := true })
    else
      let s2 := updateTask s taskId (fun u => { u with agentAlive := false })
      { s2 with agents := s2.agents.filter (fun a => a != taskId) }
  | none => s

/-- The injection metadata type selected by the final status of a run
(bg-task-runner.ts lines 311-313). -/
def runInjectionType (st : TaskStatus) : InjectionType :=
  if st = .completed then .task_result
  else if st = .cancelled then .task_cancelled
  else .task_failed

/-- Lines 305-316 of the `finally` block: enqueue one injection typed by
the task's final status. -/
def finishInject (s : RunnerState) (taskId : Nat) : RunnerState :=
  match getTask s taskId with
  | some t => enqueueInjection s taskId (buildMessage t) (runInjectionType t.status)
  | none => s

/-- Tail of `runWithSandbox` (bg-task-runner.ts lines 241-320): the
status/result assignment after the pause-loop (or the catch branch), then
the `finally` block — agent keep-alive bookkeeping, clearing the pending
message, one injection typed by the final status, and a drain.  Sandbox
disposal has no effect on the runner state modelled here. -/
def finishRun (s : RunnerState) (taskId : Nat) (outcome : RunOutcome) : RunnerState :=
  let s := finishStatus s taskId outcome
  let s := finishKeepAlive s taskId
  let s := { s with pendingMessages := s.pendingMessages.filter (fun p => p.1 != taskId) }
  let s := finishInject s taskId
  -- line 319
  drainQueue s

/-! ## The pause-loop (bg-task-runner.ts lines 221-235) and `sendMessage`
(lines 397-404) -/

/-- Overwrite-or-insert into the `pendingMessages` map. -/
def mapSet (m : List (Nat × String)) (k : Nat) (v : String) : List (Nat × String) :=
  if m.any (fun p => p.1 == k) then m.map (fun p => if p.1 == k then (k, v) else p)
  else m ++ [(k, v)]

/-- Lookup in the `pendingMessages` map. -/
def mapGet (m : List (Nat × String)) (k : Nat) : Option String :=
  (m.find? (fun p => p.1 == k)).map (fun p => p.2)

/-- `sendMessage` (bg-task-runner.ts lines 397-404): valid only for a
running task with a live agent; stores the instruction as the single
pending message for the task (`Map.set` overwrites) and interrupts the
sub-agent. -/
def sendMessage (s : RunnerState) (taskId : Nat) (instruction : String) :
    Bool × RunnerState :=
  if s.agents.contains taskId then
    match getTask s taskId with
    | some task =>
      if task.status = .running then
        (true, { s with pendingMessages := mapSet s.pendingMessages taskId instruction })
      else (false, s)
    | none => (false, s)
  else (false, s)

/-- The inputs fed to `subAgent.complete` by the pause-loop
(bg-task-runner.ts lines 221-235), given the loop's first input, the
pending message present when the first call pauses, and a script of the
successive `complete` outcomes paired with the task status observed at
each pause.  New `sendMessage` calls arriving after the first pause are
outside this scenario (the claim under study concerns two sends before the
first pause). -/
def pauseLoopInputs (input : String) (pending : Option String) :
    List (CompleteStatus × TaskStatus) → List String
  | [] => [input]
  | (res, st) :: rest =>
    match res with
    | .ok _ => [input]
    | .paused =>
      if st = .cancelled ∨ st = .failed then [input]
      else
        match pending with
        | some m => input :: pauseLoopInputs m none rest
        | none => [input]

/-! ## Chat re-entry (bg-task-runner.ts lines 447-672)

`chatAsync` validates and launches `runChatInBackground`; the synchronous
part of both `runChatInBackground` and `chat` marks the task running.  The
completion of the background chat (or of `chat`) is a separate step. -/

/-- Validation and the synchronous `task.status = 'running'` marking shared
by `chatAsync`/`runChatInBackground` (lines 451-481) and `chat` (lines
580-601).  Returns whether the chat was started. -/
def chatBegin (s : RunnerState) (taskId : Nat) : Bool × RunnerState :=
  match getTask s taskId with
  | none => (false, s)
  | some task =>
    if ¬ task.agentAlive then (false, s)
    else if ¬ s.agents.contains taskId then
      (false, updateTask s taskId (fun t => { t with agentAlive := false }))
    else
      (true, updateTask s taskId (fun t => { t with status := .running }))

/-- Successful completion of `runChatInBackground` (bg-task-runner.ts lines
520-544): mark completed, record the result, enqueue one `chat_result`
injection. -/
def chatAsyncFinishOk (s : RunnerState) (taskId : Nat) (text : String) : RunnerState :=
  let s := updateTask s taskId (fun t => { t with status := .completed, result := some text })
  match getTask s taskId with
  | some t => enqueueInjection s taskId (buildChatMessage t (some text) none) .chat_result
  | none => s

/-- Failing completion of `runChatInBackground` (bg-task-runner.ts lines
545-562): restore the previous status, record the error, enqueue one
`chat_failed` injection.  `prev` is the `previousStatus` captured when the
chat began. -/
def chatAsyncFinishErr (s : RunnerState) (taskId : Nat) (prev : TaskStatus) (msg : String) :
    RunnerState :=
  let s := updateTask s taskId (fun t => { t with status := prev, error := some msg })
  match getTask s taskId with
  | some t => enqueueInjection s taskId (buildChatMessage t none (some msg)) .chat_failed
  | none => s

/-- Successful completion of the synchronous `chat` (bg-task-runner.ts
lines 640-659): mark completed and record the result.  The response is
returned to the caller; no injection is enqueued. -/
def chatSyncFinishOk (s : RunnerState) (taskId : Nat) (text : String) : RunnerState :=
  updateTask s taskId (fun t => { t with status := .completed, result := some text })

/-- Failing completion of the synchronous `chat` (bg-task-runner.ts lines
660-665): restore the previous status (the error is returned to the
caller; neither `task.error` nor any injection is produced). -/
def chatSyncFinishErr (s : RunnerState) (taskId : Nat) (prev : TaskStatus) : RunnerState :=
  updateTask s taskId (fun t => { t with status := prev })

/-- The `tool_executed` listener registered for a chat session
(bg-task-runner.ts lines 511-515 and 631-635): increments `toolCalls` and
refreshes activity, with no resource-limit check. -/
def toolExecutedChat (s : RunnerState) (taskId : Nat) : RunnerState :=
  updateTask s taskId (fun t =>
    { t with resourceUsage := { t.resourceUsage with toolCalls := t.resourceUsage.toolCalls + 1 } })

/-- The `token_usage` listener registered for a chat session
(bg-task-runner.ts lines 505-509 and 625-629). -/
def tokenUsageChat (s : RunnerState) (taskId : Nat) (delta : Nat) : RunnerState :=
  updateTask s taskId (fun t =>
    { t with resourceUsage := { t.resourceUsage with totalTokens := t.resourceUsage.totalTokens + delta } })

/-! ## The `bg_task_retry` tool (bg-task-run.ts lines 207-241) -/

/-- Result of `bg_task_retry`'s `execute`. -/
inductive RetryResult where
  | ok (newTaskId : Nat) (retryCount : Nat)
  | err (msg : String)
deriving DecidableEq, Repr

/-- `bg_task_retry` execute (bg-task-run.ts lines 215-239): only a failed or
cancelled task may be retried; the new task reuses the original prompt
(unless `modifiedPrompt` is given), priority, limits, skills and redo
history, with `retryCount` bumped and a description suffix. -/
def bgTaskRetry (s : RunnerState) (taskId : Nat) (modifiedPrompt : Option String) :
    RetryResult × RunnerState :=
  match getTask s taskId with
  | none => (.err ("任务 " ++ toString taskId ++ " 不存在"), s)
  | some task =>
    if task.status ≠ .failed ∧ task.status ≠ .cancelled then
      (.err "只能重试 failed/cancelled 任务", s)
    else
      let newPrompt := modifiedPrompt.getD task.prompt
      let newDescription := task.description ++ " (retry #" ++ toString (task.retryCount + 1) ++ ")"
      let r := startTask s task.templateId newPrompt newDescription
        (some
          { priority := some task.priority
            limits := some task.resourceLimits
            skills := some task.skills
            retryCount := some (task.retryCount + 1)
            redoHistory := some task.redoHistory })
      (.ok r.1 (task.retryCount + 1), r.2)

/-! ## Step relation and reachability

One constructor per externally triggerable state change.  The side
conditions record facts that hold at the real call sites: `finishRun` and
the chat steps only ever execute for a task that has been dispatched
(hence is no longer queued), and the `previousStatus` a chat restores was
captured from a dispatched task. -/

/-- The task, if present, is not queued. -/
def notQueuedNow (s : RunnerState) (id : Nat) : Prop :=
  ∀ t, getTask s id = some t → t.status ≠ .queued

instance (s : RunnerState) (id : Nat) : Decidable (notQueuedNow s id) := by
  unfold notQueuedNow
  infer_instance

/-- One observable operation of the runner. -/
inductive Step : RunnerState → RunnerState → Prop where
  | startStep (s : RunnerState) (templateId prompt description : String) (opts : Option StartOpts) :
      Step s (startTask s templateId prompt description opts).2
  | cancelStep (s : RunnerState) (id : Nat) (reason : Option String) :
      Step s (cancel s id reason).2
  | finishRunStep (s : RunnerState) (id : Nat) (outcome : RunOutcome)
      (h : notQueuedNow s id) : Step s (finishRun s id outcome)
  | toolMainStep (s : RunnerState) (id : Nat) : Step s (toolExecutedMain s id)
  | stepMainStep (s : RunnerState) (id : Nat) : Step s (stepCompleteMain s id)
  | tokenMainStep (s : RunnerState) (id : Nat) (delta : Nat) : Step s (tokenUsageMain s id delta)
  | idleTimeoutStep (s : RunnerState) (id : Nat) : Step s (handleIdleTimeout s id)
  | sendMessageStep (s : RunnerState) (id : Nat) (instruction : String) :
      Step s (sendMessage s id instruction).2
  | chatBeginStep (s : RunnerState) (id : Nat) (h : notQueuedNow s id) :
      Step s (chatBegin s id).2
  | toolChatStep (s : RunnerState) (id : Nat) :
      Step s (toolExecutedChat s id)
  | tokenChatStep (s : RunnerState) (id : Nat) (delta : Nat) :
      Step s (tokenUsageChat s id delta)
  | chatAsyncOkStep (s : RunnerState) (id : Nat) (text : String) (h : notQueuedNow s id) :
      Step s (chatAsyncFinishOk s id text)
  | chatAsyncErrStep (s : RunnerState) (id : Nat) (prev : TaskStatus) (msg : String)
      (h : notQueuedNow s id) (hp : prev ≠ .queued) :
      Step s (chatAsyncFinishErr s id prev msg)
  | chatSyncOkStep (s : RunnerState) (id : Nat) (text : String) (h : notQueuedNow s id) :
      Step s (chatSyncFinishOk s id text)
  | chatSyncErrStep (s : RunnerState) (id : Nat) (prev : TaskStatus)
      (h : notQueuedNow s id) (hp : prev ≠ .queued) :
      Step s (chatSyncFinishErr s id prev)

/-- States reachable from a fresh runner with the given configuration. -/
def Reachable (init s : RunnerState) : Prop :=
  Relation.ReflTransGen Step init s

/-! ## ChatLock (chat-lock.ts lines 5-25)

The class holds a boolean `locked` and a FIFO `waiters` array of promise
resolvers.  `release()` resolves the head waiter, which *schedules* the
parked `acquire`'s continuation on the JavaScript microtask queue; when
that continuation later runs, the `while (this.locked)` loop re-checks the
flag.  The model makes that scheduling explicit: `scheduled` is the
microtask queue of woken waiters, `runScheduled` runs its head.  `holder`
is a ghost field recording which caller's `acquire` has returned (i.e. who
owns the lock); callers are named by numbers. -/

structure LockState where
  locked : Bool
  waiters : List Nat
  scheduled : List Nat
  holder : Option Nat
deriving DecidableEq, Repr

/-- The unlocked lock with no waiters (constructor state). -/
def lockInit : LockState :=
  { locked := false, waiters := [], scheduled := [], holder := none }

/-- A caller invokes `acquire()` (chat-lock.ts lines 9-14): if unlocked,
set `locked` and return at once (the caller now holds the lock); if
locked, park in the waiter list. -/
def acquireCall (s : LockState) (who : Nat) : LockState :=
  if s.locked then { s with waiters := s.waiters ++ [who] }
  else { s with locked := true, holder := some who }

/-- `release()` (chat-lock.ts lines 16-20): clear `locked`, shift the head
waiter (if any) and resolve its promise — which only schedules the parked
continuation. -/
def release (s : LockState) : LockState :=
  let s := { s with locked := false, holder := none }
  match s.waiters with
  | [] => s
  | w :: rest => { s with waiters := rest, scheduled := s.scheduled ++ [w] }

/-- The microtask queue runs the head scheduled continuation: the woken
waiter's `while (this.locked)` loop re-checks the flag — it acquires if
the lock is free, and parks again otherwise (chat-lock.ts lines 10-13). -/
def runScheduled (s : LockState) : LockState :=
  match s.scheduled with
  | [] => s
  | w :: rest =>
    let s := { s with scheduled := rest }
    if s.locked then { s with waiters := s.waiters ++ [w] }
    else { s with locked := true, holder := some w }

/-! ## Safe-command policy (safe-commands.ts)

The `DANGEROUS_PATTERNS` are JavaScript regexes used only through
`pattern.test(command)` — existence of a match anywhere in the string.
The patterns use literals, character classes (`\s`, `\S`, `.`, `[^x]`),
word boundaries `\b`, alternation, and `*`/`+` applied to single-character
classes, which the small matcher below interprets; `test` ignores
greediness, so existence of *any* match is the exact semantics. -/

/-- JavaScript `\s` (ECMA-262 WhiteSpace ∪ LineTerminator). -/
def isJsSpace (c : Char) : Bool :=
  c = ' ' || c = '\t' || c = '\n' || c = '\x0b' || c = '\x0c' || c = '\r' ||
  c = Char.ofNat 0xa0 || c = Char.ofNat 0x1680 ||
  (Char.ofNat 0x2000 ≤ c && c ≤ Char.ofNat 0x200a) ||
  c = Char.ofNat 0x2028 || c = Char.ofNat 0x2029 || c = Char.ofNat 0x202f ||
  c = Char.ofNat 0x205f || c = Char.ofNat 0x3000 || c = Char.ofNat 0xfeff

/-- JavaScript `String.prototype.trim`: strip leading and trailing
JavaScript whitespace (kept executable over the character list so that the
kernel can evaluate it). -/
def jsTrim (s : String) : String :=
  String.mk (((s.data.dropWhile isJsSpace).reverse.dropWhile isJsSpace).reverse)

/-- JavaScript `.` without the `s` flag: any character except a line
terminator. -/
def isJsDot (c : Char) : Bool :=
  !(c = '\n' || c = '\r' || c = Char.ofNat 0x2028 || c = Char.ofNat 0x2029)

/-- JavaScript `\w` as used by the `\b` assertion: ASCII letters, digits
and underscore. -/
def isWordChar (c : Char) : Bool :=
  ('a' ≤ c && c ≤ 'z') || ('A' ≤ c && c ≤ 'Z') || ('0' ≤ c && c ≤ '9') || c = '_'

/-- Regular expressions as used by `DANGEROUS_PATTERNS`: `starCls` is `*`
over a one-character class (`+` is the class followed by its star),
`chari` is a case-insensitive literal (the `/i` flag of the curl
pattern), `wb` is the zero-width `\b` assertion. -/
inductive RE where
  | eps
  | char (c : Char)
  | chari (c : Char)
  | cls (p : Char → Bool)
  | seq (a b : RE)
  | alt (a b : RE)
  | starCls (p : Char → Bool)
  | wb

/-- Word-boundary test given the reversed left context and the remainder. -/
def atBoundary (l s : List Char) : Bool :=
  let prevWord := match l with | [] => false | c :: _ => isWordChar c
  let nextWord := match s with | [] => false | c :: _ => isWordChar c
  prevWord != nextWord

/-- All ways for a starred class to consume a piece of the remainder,
continuation-passing. -/
def starMatch (p : Char → Bool) (k : List Char → List Char → Bool) :
    List Char → List Char → Bool
  | l, [] => k l []
  | l, c :: rest => k l (c :: rest) || (p c && starMatch p k (c :: l) rest)

/-- Does some piece of `s` starting at the current position match `r`?
`l` is the reversed consumed context (needed by `\b`), `k` the
continuation receiving the updated context and remainder. -/
def reMatch : RE → List Char → List Char → (List Char → List Char → Bool) → Bool
  | .eps, l, s, k => k l s
  | .char c, l, s, k =>
    match s with
    | [] => false
    | x :: xs => x == c && k (x :: l) xs
  | .chari c, l, s, k =>
    match s with
    | [] => false
    | x :: xs => x.toLower == c.toLower && k (x :: l) xs
  | .cls p, l, s, k =>
    match s with
    | [] => false
    | x :: xs => p x && k (x :: l) xs
  | .seq a b, l, s, k => reMatch a l s (fun l2 s2 => reMatch b l2 s2 k)
  | .alt a b, l, s, k => reMatch a l s k || reMatch b l s k
  | .starCls p, l, s, k => starMatch p k l s
  | .wb, l, s, k => atBoundary l s && k l s

/-- `regex.test(string)`: does a match start at any position? -/
def reTestFrom (r : RE) : List Char → List Char → Bool
  | l, [] => reMatch r l [] (fun _ _ => true)
  | l, c :: rest => reMatch r l (c :: rest) (fun _ _ => true) || reTestFrom r (c :: l) rest

/-- `regex.test` on a string. -/
def reTestStr (r : RE) (s : String) : Bool :=
  reTestFrom r [] s.data

/-- Literal string pattern. -/
def lit (s : String) : RE :=
  s.data.foldr (fun c r => RE.seq (RE.char c) r) RE.eps

/-- Case-insensitive literal string pattern. -/
def liti (s : String) : RE :=
  s.data.foldr (fun c r => RE.seq (RE.chari c) r) RE.eps

/-- `\s*` -/
def reSpaces0 : RE := .starCls isJsSpace

/-- `\s+` -/
def reSpaces1 : RE := .seq (.cls isJsSpace) (.starCls isJsSpace)

/-- `\bword\b` -/
def wbWord (w : String) : RE := .seq .wb (.seq (lit w) .wb)

/-- `\bword\s` -/
def wbWordSp (w : String) : RE := .seq .wb (.seq (lit w) (.cls isJsSpace))

/-- `\bgit\s+op\b` -/
def gitOp (w : String) : RE :=
  .seq .wb (.seq (lit "git") (.seq reSpaces1 (.seq (lit w) .wb)))

/-- The backtick character (written by code point to keep the source free
of raw backticks). -/
def btChar : Char := Char.ofNat 96

/-- `DANGEROUS_PATTERNS` (safe-commands.ts lines 67-99), in source order. -/
def DANGEROUS_PATTERNS : List RE :=
  [ wbWordSp "rm"
  , wbWord "rmdir"
  , wbWord "mkdir"
  , wbWordSp "mv"
  , wbWordSp "cp"
  , wbWord "chmod"
  , wbWord "chown"
  , wbWord "sudo"
  , wbWordSp "su"
  , .seq (.char '>') reSpaces0
  , wbWord "dd"
  , wbWord "kill"
  , wbWord "pkill"
  , wbWord "shutdown"
  , wbWord "reboot"
  , wbWord "systemctl"
  , wbWord "service"
  , .seq .wb (.seq (lit "npm") (.seq reSpaces1 (.seq (lit "publish") .wb)))
  , gitOp "push"
  , gitOp "reset"
  , gitOp "checkout"
  , gitOp "merge"
  , gitOp "rebase"
  , gitOp "commit"
  , gitOp "add"
  , .seq .wb (.seq (liti "curl") (.seq (.cls isJsSpace) (.seq (.starCls isJsDot)
      (.alt
        (.seq (liti "-X") (.seq reSpaces0
          (.alt (liti "POST") (.alt (liti "PUT") (.alt (liti "DELETE") (liti "PATCH"))))))
        (.seq (liti "-d") (.cls isJsSpace))))))
  , .seq .wb (.seq (lit "wget") (.seq (.cls isJsSpace) (.seq (.starCls isJsDot)
      (.seq (lit "-O") (.seq reSpaces1 (.cls (fun c => c != '-')))))))
  , .seq (.char btChar) (.seq (.cls (fun c => c != btChar))
      (.seq (.starCls (fun c => c != btChar)) (.char btChar)))
  , lit "$("
  , .seq (.char '|') (.seq reSpaces0 (.seq
      (.alt (lit "bash") (.alt (lit "sh") (.alt (lit "zsh") (lit "exec")))) .wb))
  , .seq (.char ';') (.seq reSpaces0 (.seq
      (.alt (lit "rm") (.alt (lit "mv") (.alt (lit "cp")
        (.alt (lit "chmod") (.alt (lit "chown") (lit "sudo")))))) .wb))
  ]

/-- `SAFE_COMMAND_PREFIXES` (safe-commands.ts lines 7-64), in source order. -/
def SAFE_COMMAND_PREFIXES : List String :=
  [ "ls", "cat", "head", "tail", "less", "more"
  , "wc", "file", "stat", "du", "df"
  , "find", "locate", "tree"
  , "grep", "egrep", "fgrep", "rg", "ag", "ack"
  , "pwd", "whoami", "id", "which", "type", "where"
  , "echo", "printf"
  , "date", "uptime", "uname", "hostname"
  , "env", "printenv"
  , "free", "top -bn1", "ps", "lsof"
  , "nproc", "lscpu", "arch"
  , "curl", "wget -O -", "wget --spider", "wget -q"
  , "ping -c", "dig", "nslookup", "host"
  , "node --version", "node -v", "node -e"
  , "npm list", "npm ls", "npm view", "npm info", "npm show"
  , "npm --version", "npm -v"
  , "npx --version"
  , "pnpm list", "pnpm ls", "pnpm --version"
  , "python --version", "python3 --version", "python -V", "python3 -V"
  , "pip list", "pip show", "pip3 list", "pip3 show"
  , "go version", "rustc --version", "cargo --version"
  , "java -version", "javac -version"
  , "git status", "git log", "git diff", "git show"
  , "git branch", "git tag", "git remote"
  , "git ls-files", "git ls-tree", "git rev-parse"
  , "git describe", "git blame", "git shortlog"
  , "git stash list", "git config --list", "git config --get"
  , "npm run lint", "npm run typecheck", "npm run check"
  , "npm run build", "npm run test", "npm test", "npm run dev"
  , "pnpm run lint", "pnpm run build", "pnpm run test", "pnpm test"
  , "npx tsc --noEmit", "npx tsc"
  , "tsc", "eslint", "prettier --check", "jest", "vitest", "mocha"
  , "pytest", "go test", "cargo test"
  , "make check", "make test", "make lint"
  , "jq", "yq"
  , "diff", "cmp", "md5sum", "sha256sum", "shasum"
  , "sort", "uniq", "cut", "awk", "sed -n", "tr"
  , "basename", "dirname", "realpath", "readlink"
  ]

/-! ### The leading `env VAR=value` stripping

`command.replace(/^\s*(env\s+\S+=\S+\s+)*/, '')` (safe-commands.ts line
149): the anchored greedy match removes leading whitespace and then as
many complete `env <token-with-internal-equals> ` groups as fit (each
group ends in mandatory whitespace; nothing follows the starred group, so
backtracking never reduces the repetition count). -/

/-- Does a `\S`-token match `\S+=\S+`, i.e. contain an `=` that has at
least one character before it and one after it? -/
def assignAfterFirst : List Char → Bool
  | [] => false
  | c :: rest => (c == '=' && !rest.isEmpty) || assignAfterFirst rest

/-- First character of the token is consumed by the leading `\S+`. -/
def tokenHasAssign : List Char → Bool
  | [] => false
  | _ :: rest => assignAfterFirst rest

/-- Match one `env\s+\S+=\S+\s+` group at the front, returning the
remainder after its trailing whitespace. -/
def matchEnvGroup (l : List Char) : Option (List Char) :=
  match l with
  | 'e' :: 'n' :: 'v' :: rest =>
    if (rest.takeWhile isJsSpace).isEmpty then none
    else
      let r1 := rest.dropWhile isJsSpace
      let tok := r1.takeWhile (fun c => !isJsSpace c)
      if tokenHasAssign tok then
        let r2 := r1.dropWhile (fun c => !isJsSpace c)
        if (r2.takeWhile isJsSpace).isEmpty then none
        else some (r2.dropWhile isJsSpace)
      else none
  | _ => none

/-- Strip as many leading env-assignment groups as possible.  Each
successful group consumes at least the three characters of `env`, so the
list length bounds the iteration count. -/
def stripGroupsFuel : Nat → List Char → List Char
  | 0, l => l
  | fuel + 1, l =>
    match matchEnvGroup l with
    | none => l
    | some r => stripGroupsFuel fuel r

/-- The whole `replace(/^\s*(env\s+\S+=\S+\s+)*/, '')`. -/
def stripEnvAssigns (command : String) : String :=
  String.mk (stripGroupsFuel command.length (command.data.dropWhile isJsSpace))

/-- Does the extracted command match some dangerous pattern
(safe-commands.ts lines 144-146)? -/
def matchesDangerous (command : String) : Bool :=
  DANGEROUS_PATTERNS.any (fun p => reTestStr p command)

/-- The safe-prefix check (safe-commands.ts lines 152-156): the normalized
command equals a safe entry, or starts with a safe entry followed by a
space or a tab. -/
def safeMatch (normalized : String) : Bool :=
  SAFE_COMMAND_PREFIXES.any (fun pre =>
    normalized == pre || (pre ++ " ").data.isPrefixOf normalized.data ||
      (pre ++ "\t").data.isPrefixOf normalized.data)

/-! ### `extractCommand` over JavaScript values (safe-commands.ts lines
105-133) -/

mutual
/-- A JavaScript value as far as `extractCommand` inspects it (arrays and
functions do not occur in tool-input previews and are not modelled). -/
inductive JSValue where
  | null
  | undef
  | str (s : String)
  | num (n : Int)
  | jsbool (b : Bool)
  | obj (fields : JSFields)

/-- Fields of a JavaScript object literal (keys are unique). -/
inductive JSFields where
  | nil
  | cons (key : String) (value : JSValue) (rest : JSFields)
end

/-- JavaScript truthiness test, negated (`!inputPreview`). -/
def jsFalsy : JSValue → Bool
  | .null => true
  | .undef => true
  | .str s => s == ""
  | .num n => n == 0
  | .jsbool b => !b
  | .obj _ => false

/-- Property lookup; a missing property reads as `undefined`. -/
def getField : JSFields → String → JSValue
  | .nil, _ => .undef
  | .cons k v rest, key => if k == key then v else getField rest key

/-- `Object.keys(preview).length`. -/
def fieldCount : JSFields → Nat
  | .nil => 0
  | .cons _ _ rest => fieldCount rest + 1

/-- The candidate property names tried by `extractCommand`
(safe-commands.ts lines 111-115), in source order. -/
def candidateNames : List String :=
  ["command", "cmd", "script", "args", "input", "shell", "exec", "run",
   "content", "code", "value"]

/-- `typeof c === 'string' && c.trim()` — a candidate is used when it is a
string whose trim is non-empty, and the trimmed string is returned. -/
def candString : JSValue → Option String
  | .str s => if jsTrim s = "" then none else some (jsTrim s)
  | _ => none

/-- First usable candidate property (safe-commands.ts lines 116-118). -/
def firstCandidate (fs : JSFields) : List String → Option String
  | [] => none
  | n :: ns =>
    match candString (getField fs n) with
    | some c => some c
    | none => firstCandidate fs ns

/-- `keys.length === 1 && typeof preview[keys[0]] === 'string'`
(safe-commands.ts lines 121-124): a single-property object whose value is
a string yields that string trimmed (even when the trim is empty). -/
def singleStringKey : JSFields → Option String
  | .cons _ (.str s) .nil => some (jsTrim s)
  | _ => none

/-- Hexadecimal digit for the `\u00XX` escapes of `JSON.stringify`. -/
def hexDigit (n : Nat) : String :=
  if n < 10 then toString n
  else if n = 10 then "a" else if n = 11 then "b" else if n = 12 then "c"
  else if n = 13 then "d" else if n = 14 then "e" else "f"

/-- One character of `JSON.stringify` string quoting. -/
def jsonEscapeChar (c : Char) : String :=
  if c = '"' then "\\\""
  else if c = '\\' then "\\\\"
  else if c = '\n' then "\\n"
  else if c = '\r' then "\\r"
  else if c = '\t' then "\\t"
  else if c = '\x08' then "\\b"
  else if c = '\x0c' then "\\f"
  else if c.toNat < 32 then "\\u00" ++ hexDigit (c.toNat / 16) ++ hexDigit (c.toNat % 16)
  else String.mk [c]

/-- `JSON.stringify` of a string. -/
def jsonQuote (s : String) : String :=
  "\"" ++ String.join (s.data.map jsonEscapeChar) ++ "\""

mutual
/-- `JSON.stringify` (undefined serializes to nothing; properties with
undefined values are skipped). -/
def stringify : JSValue → Option String
  | .null => some "null"
  | .undef => none
  | .str s => some (jsonQuote s)
  | .num n => some (toString n)
  | .jsbool b => some (if b then "true" else "false")
  | .obj fs => some ("\x7b" ++ String.intercalate "," (stringifyFields fs) ++ "\x7d")

/-- Serialized `"key":value` parts of an object, skipping undefined
values. -/
def stringifyFields : JSFields → List String
  | .nil => []
  | .cons k v rest =>
    match stringify v with
    | none => stringifyFields rest
    | some sv => (jsonQuote k ++ ":" ++ sv) :: stringifyFields rest
end

/-- `extractCommand` (safe-commands.ts lines 105-133). -/
def extractCommand (inputPreview : JSValue) : Option String :=
  if jsFalsy inputPreview then none
  else
    match inputPreview with
    | .str s => some (jsTrim s)
    | .obj fs =>
      match firstCandidate fs candidateNames with
      | some c => some c
      | none =>
        match singleStringKey fs with
        | some c => some c
        | none =>
          match stringify (.obj fs) with
          | some json => if json.length < 500 then some json else none
          | none => none
    | _ => none

/-- `isSafeCommand` (safe-commands.ts lines 139-159). -/
def isSafeCommand (inputPreview : JSValue) : Bool :=
  match extractCommand inputPreview with
  | none => false
  | some command =>
    if command == "" then false
    else if matchesDangerous command then false
    else safeMatch (jsTrim (stripEnvAssigns command))

/-! ## Auxiliary notions used by the statements and proofs -/

/-- Dispatch order on queue entries: strictly smaller priority rank first,
and creation (enqueue) order within a priority — task ids are handed out
by a monotone counter, so `a.1 < b.1` says `a` was enqueued first. -/
def queueLe (a b : Nat × TaskPriority) : Prop :=
  PRIORITY_ORDER a.2 < PRIORITY_ORDER b.2 ∨
    (PRIORITY_ORDER a.2 = PRIORITY_ORDER b.2 ∧ a.1 < b.1)

/-- Comparison by priority rank only. -/
def rankLe (a b : Nat × TaskPriority) : Prop :=
  PRIORITY_ORDER a.2 ≤ PRIORITY_ORDER b.2

/-- Insertion of a *newest* element into a rank-sorted list: it goes after
every entry of smaller-or-equal rank.  `sortByPrio (l ++ [x])` computes
this when `l` is already sorted — this is exactly what the stable re-sort
in `start` does to the freshly appended task. -/
def insertNew (x : Nat × TaskPriority) : List (Nat × TaskPriority) → List (Nat × TaskPriority)
  | [] => [x]
  | y :: ys =>
    if PRIORITY_ORDER y.2 ≤ PRIORITY_ORDER x.2 then y :: insertNew x ys
    else x :: y :: ys

/-- The pending-queue well-formedness maintained by the runner: the list is
sorted in dispatch order (strict priority, FIFO within a priority), and
every queued id was handed out by the id counter. -/
def QueueInv (s : RunnerState) : Prop :=
  s.pendingQueue.Pairwise queueLe ∧ ∀ e ∈ s.pendingQueue, e.1 < s.nextId

/-- Everything of a task except its mutable status / usage / result /
error / cancel-reason / agent bookkeeping — the fields dispatch never
touches. -/
def taskCore (t : BgTask) :
    String × String × TaskPriority × String × List String × Nat × List String × ResourceLimits :=
  (t.templateId, t.description, t.priority, t.prompt, t.skills, t.retryCount,
    t.redoHistory, t.resourceLimits)

/-- A task after one `tool_executed` increment — the common effect of both
the main-run listener and the chat listener. -/
def bumpToolCalls (t : BgTask) : BgTask :=
  { t with resourceUsage := { t.resourceUsage with toolCalls := t.resourceUsage.toolCalls + 1 } }

/-! ## Concrete execution traces

Small concrete runs of the embedded operations, used to evaluate the
claims on explicit reachable states. -/

/-- A `start` options record selecting only a priority. -/
def prioOpts (p : TaskPriority) : StartOpts :=
  { priority := some p, limits := none, skills := none, retryCount := none,
    redoHistory := none }

/-- A `start` options record selecting only a `maxToolCalls` limit. -/
def toolLimitOpts (m : Nat) : StartOpts :=
  { priority := none
    limits := some { maxToolCalls := some m, maxSteps := none, idleTimeoutMs := none }
    skills := none, retryCount := none, redoHistory := none }

/-- Trace for the concurrency bound: `maxConcurrent = 1`; task 0 is started
and dispatched. -/
def c1TraceA : RunnerState :=
  (startTask (initState 1 120000 200 50) "executor" "job" "demo" none).2

/-- Task 0's run finishes successfully: completed, agent kept alive. -/
def c1TraceB : RunnerState := finishRun c1TraceA 0 (.finished "done")

/-- Task 1 is started and dispatched (running count = 1 = maxConcurrent). -/
def c1TraceC : RunnerState :=
  (startTask c1TraceB "executor" "job2" "demo2" none).2

/-- A chat re-entry on completed task 0 marks it running again. -/
def c1TraceD : RunnerState := (chatBegin c1TraceC 0).2

/-- Trace for the tool-call budget: task 0 with `maxToolCalls = 1`. -/
def c3TraceA : RunnerState :=
  (startTask (initState 5 120000 200 50) "executor" "job" "demo" (some (toolLimitOpts 1))).2

/-- Task 0 completes without any tool call. -/
def c3TraceB : RunnerState := finishRun c3TraceA 0 (.finished "done")

/-- A chat re-entry begins on task 0. -/
def c3TraceC : RunnerState := (chatBegin c3TraceB 0).2

/-- Two `tool_executed` events arrive through the chat listener. -/
def c3TraceD : RunnerState := toolExecutedChat (toolExecutedChat c3TraceC 0) 0

/-- Trace for the injection discipline: task 0 started and dispatched. -/
def c5TraceA : RunnerState :=
  (startTask (initState 5 120000 200 50) "executor" "job" "demo" none).2

/-- Task 0's run finishes: exactly one `task_result` injection. -/
def c5TraceB : RunnerState := finishRun c5TraceA 0 (.finished "done")

/-- A synchronous `chat` re-entry begins on completed task 0. -/
def c5TraceC : RunnerState := (chatBegin c5TraceB 0).2

/-- The synchronous `chat` completes successfully — and enqueues nothing. -/
def c5TraceD : RunnerState := chatSyncFinishOk c5TraceC 0 "reply"

/-- Trace for queue ordering: `maxConcurrent = 0`, so started tasks stay
queued; a low-priority task is started first. -/
def c6TraceA : RunnerState :=
  (startTask (initState 0 120000 200 50) "executor" "p1" "d1" (some (prioOpts .low))).2

/-- Then a high-priority task: the stable re-sort puts it at the head. -/
def c6TraceB : RunnerState :=
  (startTask c6TraceA "executor" "p2" "d2" (some (prioOpts .high))).2

/-- A cancelled task (cancelling queued task 0 of the zero-capacity
trace), retryable by `bg_task_retry`. -/
def c7Trace : RunnerState := (cancel c6TraceB 0 (some "stop")).2

/-- Decidability of the dispatch order, for evaluating it on concrete
queues. -/
instance : DecidableRel queueLe := fun a b => by
  unfold queueLe
  infer_instance

/-! # Theorems

General lemmas about the embedded operations first, then one theorem (plus
witness / counterexample where applicable) per specification claim. -/

theorem find?_updateFirst_self (l : List BgTask) (id : Nat) (f : BgTask → BgTask)
    (hf : ∀ t, (f t).id = t.id) :
    (updateFirst l id f).find? (fun t => t.id == id) =
      (l.find? (fun t => t.id == id)).map f := by
  induction l with
  | nil => simp [updateFirst]
  | cons t ts ih =>
    by_cases h : t.id = id
    · simp [updateFirst, h, hf]
    · simp [updateFirst, h, ih]

theorem find?_updateFirst_other (l : List BgTask) (id : Nat) (f : BgTask → BgTask)
    (hf : ∀ t, (f t).id = t.id) (id' : Nat) (hne : id' ≠ id) :
    (updateFirst l id f).find? (fun t => t.id == id') =
      l.find? (fun t => t.id == id') := by
  induction l with
  | nil => simp [updateFirst]
  | cons t ts ih =>
    by_cases h : t.id = id
    · have hft : (f t).id = t.id := hf t
      have h' : t.id ≠ id' := fun he => hne (he.symm.trans h)
      have h2 : id ≠ id' := fun he => hne he.symm
      simp [updateFirst, h, List.find?_cons, hft, h', h2]
    · by_cases h' : t.id = id'
      · simp [updateFirst, h, List.find?_cons, h', hne]
      · simp [updateFirst, h, List.find?_cons, h', ih]

theorem getTask_updateTask_self (s : RunnerState) (id : Nat) (f : BgTask → BgTask)
    (hf : ∀ t, (f t).id = t.id) :
    getTask (updateTask s id f) id = (getTask s id).map f :=
  find?_updateFirst_self s.tasks id f hf

theorem getTask_updateTask_other (s : RunnerState) (id : Nat) (f : BgTask → BgTask)
    (hf : ∀ t, (f t).id = t.id) (id' : Nat) (hne : id' ≠ id) :
    getTask (updateTask s id f) id' = getTask s id' :=
  find?_updateFirst_other s.tasks id f hf id' hne

theorem countP_updateFirst_le_succ (p : BgTask → Bool) (l : List BgTask) (id : Nat)
    (f : BgTask → BgTask) :
    (updateFirst l id f).countP p ≤ l.countP p + 1 := by
  induction l with
  | nil => simp [updateFirst]
  | cons t ts ih =>
    by_cases h : t.id = id
    · by_cases hp : p (f t) = true <;> by_cases hq : p t = true <;>
        simp [updateFirst, h, hp, hq, List.countP_cons] <;> omega
    · simp [updateFirst, h, List.countP_cons]
      by_cases hq : p t = true <;> simp [hq] <;> omega

theorem countP_updateFirst_le_of (p : BgTask → Bool) (l : List BgTask) (id : Nat)
    (f : BgTask → BgTask) (h : ∀ t, p (f t) = true → p t = true) :
    (updateFirst l id f).countP p ≤ l.countP p := by
  induction l with
  | nil => simp [updateFirst]
  | cons t ts ih =>
    by_cases ht : t.id = id
    · by_cases hp : p (f t) = true
      · have hpt := h t hp
        simp [updateFirst, ht, hp, hpt, List.countP_cons]
      · by_cases hpt : p t = true <;>
          simp [updateFirst, ht, hp, hpt, List.countP_cons] <;> omega
    · simp [updateFirst, ht, List.countP_cons]
      omega

theorem countP_updateFirst_eq_of (p : BgTask → Bool) (l : List BgTask) (id : Nat)
    (f : BgTask → BgTask) (h : ∀ t, p (f t) = p t) :
    (updateFirst l id f).countP p = l.countP p := by
  induction l with
  | nil => simp [updateFirst]
  | cons t ts ih =>
    by_cases ht : t.id = id
    · simp [updateFirst, ht, List.countP_cons, h]
    · simp [updateFirst, ht, List.countP_cons, ih]

theorem runningCount_dispatch_le (s : RunnerState) (id : Nat) :
    runningCount (dispatch s id) ≤ runningCount s + 1 := by
  simpa [dispatch, runningCount, updateTask] using
    countP_updateFirst_le_succ (fun t => t.status == .running) s.tasks id
      (fun t => { t with status := .running })

theorem maxConcurrent_dispatch (s : RunnerState) (id : Nat) :
    (dispatch s id).maxConcurrent = s.maxConcurrent := rfl

theorem dispatch_pendingQueue (s : RunnerState) (rest : List (Nat × TaskPriority))
    (id : Nat) :
    (dispatch { s with pendingQueue := rest } id).pendingQueue = rest := rfl

theorem drainGo_stop (fuel : Nat) (s : RunnerState)
    (h : ¬ runningCount s < s.maxConcurrent) : drainGo fuel s = s := by
  cases fuel with
  | zero => rfl
  | succ n => simp [drainGo, h]

theorem drainGo_succ_nil (n : Nat) (s : RunnerState) (h : s.pendingQueue = []) :
    drainGo (n + 1) s = s := by
  simp [drainGo, h]

theorem drainGo_succ_cons (n : Nat) (s : RunnerState) (q : Nat × TaskPriority)
    (rest : List (Nat × TaskPriority)) (hlt : runningCount s < s.maxConcurrent)
    (h : s.pendingQueue = q :: rest) :
    drainGo (n + 1) s = drainGo n (dispatch { s with pendingQueue := rest } q.1) := by
  simp [drainGo, hlt, h]

theorem drainQueue_eq_stop (s : RunnerState) (h : ¬ runningCount s < s.maxConcurrent) :
    drainQueue s = s :=
  drainGo_stop s.pendingQueue.length s h

theorem drainQueue_eq_nil (s : RunnerState) (h : s.pendingQueue = []) :
    drainQueue s = s := by
  unfold drainQueue
  rw [h]
  rfl

theorem drainQueue_eq_cons (s : RunnerState) (q : Nat × TaskPriority)
    (rest : List (Nat × TaskPriority)) (hlt : runningCount s < s.maxConcurrent)
    (h : s.pendingQueue = q :: rest) :
    drainQueue s = drainQueue (dispatch { s with pendingQueue := rest } q.1) := by
  unfold drainQueue
  rw [dispatch_pendingQueue, h]
  exact drainGo_succ_cons rest.length s q rest hlt h

theorem drainGo_maxConcurrent (fuel : Nat) :
    ∀ s : RunnerState, (drainGo fuel s).maxConcurrent = s.maxConcurrent := by
  induction fuel with
  | zero => intro s; rfl
  | succ n ih =>
    intro s
    by_cases hlt : runningCount s < s.maxConcurrent
    · cases hpq : s.pendingQueue with
      | nil => rw [drainGo_succ_nil n s hpq]
      | cons q rest =>
        rw [drainGo_succ_cons n s q rest hlt hpq]
        rw [ih]
        rfl
    · rw [drainGo_stop _ s hlt]

theorem maxConcurrent_drainQueue (s : RunnerState) :
    (drainQueue s).maxConcurrent = s.maxConcurrent :=
  drainGo_maxConcurrent s.pendingQueue.length s

theorem drainGo_runningCount_le (fuel : Nat) :
    ∀ s : RunnerState, runningCount s ≤ s.maxConcurrent →
      runningCount (drainGo fuel s) ≤ s.maxConcurrent := by
  induction fuel with
  | zero => intro s h; exact h
  | succ n ih =>
    intro s h
    by_cases hlt : runningCount s < s.maxConcurrent
    · cases hpq : s.pendingQueue with
      | nil =>
        rw [drainGo_succ_nil n s hpq]
        exact h
      | cons q rest =>
        rw [drainGo_succ_cons n s q rest hlt hpq]
        have hd : runningCount (dispatch { s with pendingQueue := rest } q.1) ≤
            runningCount s + 1 :=
          runningCount_dispatch_le { s with pendingQueue := rest } q.1
        have harg : runningCount (dispatch { s with pendingQueue := rest } q.1) ≤
            (dispatch { s with pendingQueue := rest } q.1).maxConcurrent := by
          have hmax : (dispatch { s with pendingQueue := rest } q.1).maxConcurrent =
              s.maxConcurrent := rfl
          rw [hmax]
          omega
        exact ih (dispatch { s with pendingQueue := rest } q.1) harg
    · rw [drainGo_stop _ s hlt]
      exact h

theorem runningCount_drainQueue_le (s : RunnerState) :
    runningCount s ≤ s.maxConcurrent → runningCount (drainQueue s) ≤ s.maxConcurrent :=
  drainGo_runningCount_le s.pendingQueue.length s

theorem drainGo_injections (fuel : Nat) :
    ∀ s : RunnerState, (drainGo fuel s).injections = s.injections := by
  induction fuel with
  | zero => intro s; rfl
  | succ n ih =>
    intro s
    by_cases hlt : runningCount s < s.maxConcurrent
    · cases hpq : s.pendingQueue with
      | nil => rw [drainGo_succ_nil n s hpq]
      | cons q rest =>
        rw [drainGo_succ_cons n s q rest hlt hpq]
        rw [ih]
        rfl
    · rw [drainGo_stop _ s hlt]

theorem injections_drainQueue (s : RunnerState) :
    (drainQueue s).injections = s.injections :=
  drainGo_injections s.pendingQueue.length s

theorem drainGo_nextId (fuel : Nat) :
    ∀ s : RunnerState, (drainGo fuel s).nextId = s.nextId := by
  induction fuel with
  | zero => intro s; rfl
  | succ n ih =>
    intro s
    by_cases hlt : runningCount s < s.maxConcurrent
    · cases hpq : s.pendingQueue with
      | nil => rw [drainGo_succ_nil n s hpq]
      | cons q rest =>
        rw [drainGo_succ_cons n s q rest hlt hpq]
        rw [ih]
        rfl
    · rw [drainGo_stop _ s hlt]

theorem nextId_drainQueue (s : RunnerState) :
    (drainQueue s).nextId = s.nextId :=
  drainGo_nextId s.pendingQueue.length s

theorem getTask_dispatch_other (s : RunnerState) (id id' : Nat) (hne : id' ≠ id) :
    getTask (dispatch s id) id' = getTask s id' := by
  simpa [dispatch, getTask, updateTask] using
    find?_updateFirst_other s.tasks id (fun t => { t with status := .running })
      (fun _ => rfl) id' hne

theorem drainGo_getTask_of_not_mem (fuel : Nat) :
    ∀ s : RunnerState, ∀ id : Nat, (∀ q ∈ s.pendingQueue, q.1 ≠ id) →
      getTask (drainGo fuel s) id = getTask s id := by
  induction fuel with
  | zero => intro s id _; rfl
  | succ n ih =>
    intro s id h
    by_cases hlt : runningCount s < s.maxConcurrent
    · cases hpq : s.pendingQueue with
      | nil => rw [drainGo_succ_nil n s hpq]
      | cons q rest =>
        rw [drainGo_succ_cons n s q rest hlt hpq]
        have hq1 : q.1 ≠ id := h q (by rw [hpq]; exact List.mem_cons_self q rest)
        have hrest : ∀ p ∈ (dispatch { s with pendingQueue := rest } q.1).pendingQueue,
            p.1 ≠ id := by
          intro p hp
          have hp2 : p ∈ rest := by simpa [dispatch_pendingQueue] using hp
          exact h p (by rw [hpq]; exact List.mem_cons_of_mem q hp2)
        rw [ih (dispatch { s with pendingQueue := rest } q.1) id hrest]
        exact getTask_dispatch_other { s with pendingQueue := rest } q.1 id
          (fun he => hq1 he.symm)
    · rw [drainGo_stop _ s hlt]

theorem getTask_drainQueue_of_not_mem (s : RunnerState) (id : Nat) :
    (∀ q ∈ s.pendingQueue, q.1 ≠ id) → getTask (drainQueue s) id = getTask s id :=
  drainGo_getTask_of_not_mem s.pendingQueue.length s id

theorem drainGo_pendingQueue_suffix (fuel : Nat) :
    ∀ s : RunnerState, ∃ k, (drainGo fuel s).pendingQueue = s.pendingQueue.drop k := by
  induction fuel with
  | zero => intro s; exact ⟨0, by simp [drainGo]⟩
  | succ n ih =>
    intro s
    by_cases hlt : runningCount s < s.maxConcurrent
    · cases hpq : s.pendingQueue with
      | nil =>
        rw [drainGo_succ_nil n s hpq]
        exact ⟨0, by simp [hpq]⟩
      | cons q rest =>
        rw [drainGo_succ_cons n s q rest hlt hpq]
        obtain ⟨k, hk⟩ := ih (dispatch { s with pendingQueue := rest } q.1)
        refine ⟨k + 1, ?_⟩
        rw [hk, dispatch_pendingQueue]
        rfl
    · rw [drainGo_stop _ s hlt]
      exact ⟨0, by simp⟩

theorem drainQueue_pendingQueue_suffix (s : RunnerState) :
    ∃ k, (drainQueue s).pendingQueue = s.pendingQueue.drop k :=
  drainGo_pendingQueue_suffix s.pendingQueue.length s

theorem taskCore_dispatch (s : RunnerState) (id id' : Nat) :
    (getTask (dispatch s id) id').map taskCore = (getTask s id').map taskCore := by
  by_cases hid : id' = id
  · subst hid
    have hd : getTask (dispatch s id') id' = (getTask s id').map
        (fun t => { t with status := .running }) := by
      have := getTask_updateTask_self s id' (fun t => { t with status := .running })
        (fun _ => rfl)
      simpa [dispatch, getTask, updateTask] using this
    rw [hd]
    cases getTask s id' with
    | none => rfl
    | some t => rfl
  · rw [getTask_dispatch_other s id id' hid]

theorem drainGo_taskCore (fuel : Nat) :
    ∀ s : RunnerState, ∀ id : Nat,
      (getTask (drainGo fuel s) id).map taskCore = (getTask s id).map taskCore := by
  induction fuel with
  | zero => intro s id; rfl
  | succ n ih =>
    intro s id
    by_cases hlt : runningCount s < s.maxConcurrent
    · cases hpq : s.pendingQueue with
      | nil => rw [drainGo_succ_nil n s hpq]
      | cons q rest =>
        rw [drainGo_succ_cons n s q rest hlt hpq]
        rw [ih (dispatch { s with pendingQueue := rest } q.1) id]
        exact taskCore_dispatch { s with pendingQueue := rest } q.1 id
    · rw [drainGo_stop _ s hlt]

theorem taskCore_drainQueue (s : RunnerState) (id : Nat) :
    (getTask (drainQueue s) id).map taskCore = (getTask s id).map taskCore :=
  drainGo_taskCore s.pendingQueue.length s id

/-! ## Claim C8 — the `isSafeCommand` decision procedure -/

/-- C8: `isSafeCommand` follows the three-step procedure: a command matching
any of the fixed dangerous patterns is rejected, even when it also begins
with a safe entry; otherwise, after stripping an optional leading
`env VAR=value` run, the command is accepted exactly when the remainder
equals — or begins, followed by a space or tab, with — one of the fixed
safe entries; and the input `(command: "git status")` is judged safe.
The concrete conjuncts exhibit danger-set dominance (`cat foo > bar`
begins with the safe entry `cat` but is rejected for its `>`), and the
env-stripping path (`env FOO=1 ls -la` is accepted). -/
theorem C8_isSafeCommand_procedure :
    (∀ input c, extractCommand input = some c → matchesDangerous c = true →
      isSafeCommand input = false)
    ∧ (∀ input c, extractCommand input = some c → c ≠ "" → matchesDangerous c = false →
      isSafeCommand input = safeMatch (jsTrim (stripEnvAssigns c)))
    ∧ isSafeCommand (.obj (.cons "command" (.str "git status") .nil)) = true
    ∧ (safeMatch (jsTrim (stripEnvAssigns "cat foo > bar")) = true
        ∧ isSafeCommand (.str "cat foo > bar") = false)
    ∧ isSafeCommand (.str "env FOO=1 ls -la") = true := by
  refine ⟨?_, ?_, by decide, by decide, by decide⟩
  · intro input c hx hd
    unfold isSafeCommand
    rw [hx]
    by_cases hc : c = ""
    · simp [hc]
    · simp [hc, hd]
  · intro input c hx hc hd
    unfold isSafeCommand
    rw [hx]
    simp [hc, hd]

/-- Witness for C8: both quantified conjuncts applied at concrete inputs
(`sudo ls` is dangerous, hence unsafe; `git log -n 5` is clean, so the
verdict is exactly the safe-prefix test on its normalized form). -/
theorem C8_isSafeCommand_procedure_witness :
    isSafeCommand (.str "sudo ls") = false
    ∧ isSafeCommand (.str "git log -n 5") =
        safeMatch (jsTrim (stripEnvAssigns "git log -n 5")) :=
  ⟨C8_isSafeCommand_procedure.1 (.str "sudo ls") "sudo ls" (by decide) (by decide),
   C8_isSafeCommand_procedure.2.1 (.str "git log -n 5") "git log -n 5"
     (by decide) (by decide) (by decide)⟩

/-! ## Claim C10 — `isSafeCommand` is fail-closed on unextractable input -/

/-- C10: whenever no non-empty command string can be extracted —
`null`/`undefined`, an empty or whitespace-only string, or an object with
no usable candidate field, no single string-valued key, and a JSON
serialization of 500 or more characters — `isSafeCommand` returns
`false` (manual approval required). -/
theorem C10_isSafeCommand_fail_closed :
    isSafeCommand .null = false
    ∧ isSafeCommand .undef = false
    ∧ (∀ s, jsTrim s = "" → isSafeCommand (.str s) = false)
    ∧ (∀ fs json, firstCandidate fs candidateNames = none →
        singleStringKey fs = none →
        stringify (.obj fs) = some json →
        500 ≤ json.length →
        isSafeCommand (.obj fs) = false) := by
  refine ⟨rfl, rfl, ?_, ?_⟩
  · intro s hs
    unfold isSafeCommand extractCommand
    by_cases h : s = ""
    · simp [jsFalsy, h]
    · simp [jsFalsy, h, hs]
  · intro fs json h1 h2 h3 h4
    unfold isSafeCommand extractCommand
    simp only [jsFalsy, Bool.false_eq_true, if_false, h1, h2, h3]
    have : ¬ json.length < 500 := by omega
    simp [this]

set_option maxRecDepth 20000 in
/-- Witness for C10: the whitespace-only string and a concrete two-field
object whose serialization exceeds 500 characters are both rejected. -/
theorem C10_isSafeCommand_fail_closed_witness :
    isSafeCommand (.str "   ") = false
    ∧ isSafeCommand (.obj (.cons "a" (.num 1)
        (.cons "b" (.str (String.mk (List.replicate 520 'x'))) .nil))) = false :=
  ⟨C10_isSafeCommand_fail_closed.2.2.1 "   " (by decide),
   C10_isSafeCommand_fail_closed.2.2.2
     (.cons "a" (.num 1) (.cons "b" (.str (String.mk (List.replicate 520 'x'))) .nil))
     (stringify (.obj (.cons "a" (.num 1)
       (.cons "b" (.str (String.mk (List.replicate 520 'x'))) .nil))) |>.getD "")
     (by decide) (by decide) (by decide) (by decide)⟩

/-! ## Claim C2 — ChatLock release is not an atomic handoff

The source lock's `release()` clears `locked` and resolves the head
waiter's promise; the parked `acquire` only resumes on the microtask
queue, where its `while (this.locked)` loop re-checks the flag.  A caller
that invokes `acquire()` after `release()` has returned — but before the
microtask runs — finds `locked === false` and takes the lock, overtaking
the parked waiter, which re-parks at the tail.  The claimed atomic
handoff (and the resulting FIFO ordering between a parked waiter and
later callers) therefore fails. -/

/-- Counterexample to C2: caller 0 holds the lock, caller 1 parks,
caller 0 releases — the lock is now *unlocked*, not handed to waiter 1 —
then caller 2 calls `acquire()` and takes the lock; when waiter 1's
wakeup finally runs it re-parks.  So a caller that arrived after the
release acquired before the waiter that parked while the lock was held,
and `release()` with a non-empty waiter list did not leave the lock held
by the head waiter. -/
theorem C2_chatLock_handoff_counterexample :
    ((release (acquireCall (acquireCall lockInit 0) 1)).locked = false
      ∧ (release (acquireCall (acquireCall lockInit 0) 1)).holder = none)
    ∧ (runScheduled (acquireCall (release (acquireCall (acquireCall lockInit 0) 1)) 2)).holder
        = some 2
    ∧ (runScheduled (acquireCall (release (acquireCall (acquireCall lockInit 0) 1)) 2)).waiters
        = [1] := by
  decide

/-- C2 (amended): `release()` marks the lock unlocked and *schedules* the
dequeued head waiter's wakeup instead of transferring the lock in the
same atomic step; the woken waiter acquires only if the lock is still
free when its continuation runs, and otherwise re-parks at the tail of
the waiter list; a caller invoking `acquire()` while the lock is free —
including the window between `release()` and the wakeup — takes the lock
immediately, and one invoking it while the lock is held parks (mutual
exclusion itself is preserved). -/
theorem C2_chatLock_release_schedules_wakeup :
    (∀ s w rest, s.waiters = w :: rest →
      release s = { s with locked := false, holder := none, waiters := rest, scheduled := s.scheduled ++ [w] })
    ∧ (∀ s, s.waiters = [] → release s = { s with locked := false, holder := none })
    ∧ (∀ s w rest, s.scheduled = w :: rest → s.locked = false →
        runScheduled s = { s with scheduled := rest, locked := true, holder := some w })
    ∧ (∀ s w rest, s.scheduled = w :: rest → s.locked = true →
        runScheduled s = { s with scheduled := rest, waiters := s.waiters ++ [w] })
    ∧ (∀ s who, s.locked = true → acquireCall s who = { s with waiters := s.waiters ++ [who] })
    ∧ (∀ s who, s.locked = false → acquireCall s who =
        { s with locked := true, holder := some who }) := by
  refine ⟨?_, ?_, ?_, ?_, ?_, ?_⟩
  · intro s w rest h
    unfold release
    rw [h]
  · intro s h
    unfold release
    rw [h]
  · intro s w rest h hl
    unfold runScheduled
    rw [h]
    simp [hl]
  · intro s w rest h hl
    unfold runScheduled
    rw [h]
    simp [hl]
  · intro s who hl
    unfold acquireCall
    simp [hl]
  · intro s who hl
    unfold acquireCall
    simp [hl]

/-- Witness for C2 (amended), at a concrete held lock with one parked
waiter and one scheduled wakeup. -/
theorem C2_chatLock_release_schedules_wakeup_witness :
    release { locked := true, waiters := [4], scheduled := [], holder := some 3 } =
      { locked := false, waiters := [], scheduled := [4], holder := none }
    ∧ runScheduled { locked := true, waiters := [], scheduled := [7], holder := some 5 } =
      { locked := true, waiters := [7], scheduled := [], holder := some 5 } :=
  ⟨C2_chatLock_release_schedules_wakeup.1
      { locked := true, waiters := [4], scheduled := [], holder := some 3 } 4 [] rfl,
   C2_chatLock_release_schedules_wakeup.2.2.2.1
      { locked := true, waiters := [], scheduled := [7], holder := some 5 } 7 [] rfl rfl⟩

/-! ## Claim C9 — a single pending instruction per task -/

theorem mapGet_map_overwrite (m : List (Nat × String)) (k : Nat) (v : String)
    (h : m.any (fun p => p.1 == k) = true) :
    mapGet (m.map (fun p => if p.1 == k then (k, v) else p)) k = some v := by
  induction m with
  | nil => cases h
  | cons p ps ih =>
    by_cases hp : p.1 = k
    · simp [mapGet, List.find?_cons, hp]
    · have hps : ps.any (fun p => p.1 == k) = true := by
        simpa [List.any_cons, hp] using h
      have := ih hps
      simpa [mapGet, List.find?_cons, hp] using this

theorem mapGet_append_fresh (m : List (Nat × String)) (k : Nat) (v : String)
    (h : m.any (fun p => p.1 == k) = false) :
    mapGet (m ++ [(k, v)]) k = some v := by
  induction m with
  | nil => simp [mapGet]
  | cons p ps ih =>
    have hp : ¬ p.1 = k := by
      intro he
      simp [List.any_cons, he] at h
    have hps : ps.any (fun p => p.1 == k) = false := by
      simpa [List.any_cons, hp] using h
    have := ih hps
    simpa [mapGet, List.find?_cons, hp] using this

theorem mapGet_mapSet (m : List (Nat × String)) (k : Nat) (v : String) :
    mapGet (mapSet m k v) k = some v := by
  unfold mapSet
  by_cases h : m.any (fun p => p.1 == k) = true
  · simp only [h, if_true]
    exact mapGet_map_overwrite m k v h
  · have hf : m.any (fun p => p.1 == k) = false := by
      cases hv : m.any (fun p => p.1 == k)
      · rfl
      · exact absurd hv h
    simp only [hf, Bool.false_eq_true, if_false]
    exact mapGet_append_fresh m k v hf

theorem pauseLoopInputs_no_pending (x : String)
    (script : List (CompleteStatus × TaskStatus)) :
    pauseLoopInputs x none script = [x] := by
  cases script with
  | nil => rfl
  | cons p rest =>
    obtain ⟨res, st⟩ := p
    cases res with
    | ok text => rfl
    | paused =>
      by_cases h : st = .cancelled ∨ st = .failed
      · simp [pauseLoopInputs, h]
      · simp [pauseLoopInputs, h]

/-- C9: `pendingMessages` holds at most one instruction per task — a
second `sendMessage` before the running sub-agent next pauses overwrites
the first (`Map.set`), the pause-loop refuels exactly once and with the
second instruction, and the first instruction is never fed to the
sub-agent.  The pause-loop is evaluated against every possible script of
`complete` outcomes with the overwritten pending slot. -/
theorem C9_single_pending_instruction :
    (∀ s id m1 m2, s.agents.contains id = true →
      (getTask s id).map (fun u => u.status) = some .running →
      (sendMessage (sendMessage s id m1).2 id m2).1 = true
      ∧ mapGet (sendMessage (sendMessage s id m1).2 id m2).2.pendingMessages id = some m2)
    ∧ (∀ prompt m2 script, pauseLoopInputs prompt (some m2) script = [prompt]
        ∨ pauseLoopInputs prompt (some m2) script = [prompt, m2])
    ∧ (∀ prompt m2 st script, st ≠ .cancelled → st ≠ .failed →
        pauseLoopInputs prompt (some m2) ((.paused, st) :: script) = [prompt, m2])
    ∧ (∀ prompt m1 m2 script, m1 ≠ prompt → m1 ≠ m2 →
        m1 ∉ pauseLoopInputs prompt (some m2) script) := by
  refine ⟨?_, ?_, ?_, ?_⟩
  · intro s id m1 m2 hagent hmap
    cases hget : getTask s id with
    | none => rw [hget] at hmap; cases hmap
    | some t =>
      rw [hget] at hmap
      have hrun : t.status = .running := by
        simpa using hmap
      have hm : id ∈ s.agents := by simpa using hagent
      have h1 : sendMessage s id m1 =
          (true, { s with pendingMessages := mapSet s.pendingMessages id m1 }) := by
        unfold sendMessage
        rw [hget]
        simp [hm, hrun]
      have hget1 : getTask { s with pendingMessages := mapSet s.pendingMessages id m1 } id =
          some t := hget
      have h2 : sendMessage { s with pendingMessages := mapSet s.pendingMessages id m1 } id m2 =
          (true, { s with pendingMessages := mapSet (mapSet s.pendingMessages id m1) id m2 }) := by
        unfold sendMessage
        rw [hget1]
        simp [hm, hrun]
      rw [h1]
      rw [h2]
      exact ⟨rfl, mapGet_mapSet (mapSet s.pendingMessages id m1) id m2⟩
  · intro prompt m2 script
    cases script with
    | nil => exact Or.inl rfl
    | cons p rest =>
      obtain ⟨res, st⟩ := p
      cases res with
      | ok text => exact Or.inl rfl
      | paused =>
        by_cases hst : st = .cancelled ∨ st = .failed
        · exact Or.inl (by simp [pauseLoopInputs, hst])
        · exact Or.inr (by simp [pauseLoopInputs, hst, pauseLoopInputs_no_pending])
  · intro prompt m2 st script h1 h2
    have hst : ¬ (st = .cancelled ∨ st = .failed) := by
      rintro (h | h)
      · exact h1 h
      · exact h2 h
    simp [pauseLoopInputs, hst, pauseLoopInputs_no_pending]
  · intro prompt m1 m2 script hp hm
    cases script with
    | nil => simp [pauseLoopInputs, hp]
    | cons p rest =>
      obtain ⟨res, st⟩ := p
      cases res with
      | ok text => simp [pauseLoopInputs, hp]
      | paused =>
        by_cases h : st = .cancelled ∨ st = .failed
        · simp [pauseLoopInputs, h, hp]
        · simp [pauseLoopInputs, h, hp, hm, pauseLoopInputs_no_pending]

/-- Witness for C9: a concrete runner with one dispatched running task;
two sendMessage calls leave only the second instruction, and a paused
`complete` followed by success feeds exactly `prompt` then that second
instruction. -/
theorem C9_single_pending_instruction_witness :
    ((sendMessage (sendMessage c5TraceA 0 "first").2 0 "second").1 = true
      ∧ mapGet (sendMessage (sendMessage c5TraceA 0 "first").2 0 "second").2.pendingMessages 0 =
          some "second")
    ∧ pauseLoopInputs "prompt" (some "second") [(.paused, .running), (.ok "t", .running)] =
        ["prompt", "second"]
    ∧ "first" ∉ pauseLoopInputs "prompt" (some "second")
        [(.paused, .running), (.ok "t", .running)] :=
  ⟨C9_single_pending_instruction.1 c5TraceA 0 "first" "second" (by decide) (by decide),
   C9_single_pending_instruction.2.2.1 "prompt" "second" .running
      [(.ok "t", .running)] (by decide) (by decide),
   C9_single_pending_instruction.2.2.2 "prompt" "first" "second"
      [(.paused, .running), (.ok "t", .running)] (by decide) (by decide)⟩

/-! ## Claim C4 — cancelling a queued task -/

theorem find?_append_fresh (l : List BgTask) (nt : BgTask) (nid : Nat)
    (hid : nt.id = nid) (h : ∀ u ∈ l, u.id ≠ nid) :
    (l ++ [nt]).find? (fun u => u.id == nid) = some nt := by
  induction l with
  | nil => simp [List.find?, hid]
  | cons a as ih =>
    have ha : a.id ≠ nid := h a (List.mem_cons_self a as)
    have := ih (fun u hu => h u (List.mem_cons_of_mem a hu))
    simpa [List.find?_cons, ha] using this

theorem getTask_enqueueInjection (s : RunnerState) (id : Nat) (m : String)
    (ty : InjectionType) (i : Nat) :
    getTask (enqueueInjection s id m ty) i = getTask s i := by
  unfold enqueueInjection
  rcases hx : s.injections with _ | q <;> simp [hx, getTask]

theorem pendingQueue_enqueueInjection (s : RunnerState) (id : Nat) (m : String)
    (ty : InjectionType) :
    (enqueueInjection s id m ty).pendingQueue = s.pendingQueue := by
  unfold enqueueInjection
  rcases hx : s.injections with _ | q <;> simp [hx]

theorem injections_enqueueInjection (s : RunnerState) (id : Nat) (m : String)
    (ty : InjectionType) (q : List InjectionItem) (h : s.injections = some q) :
    (enqueueInjection s id m ty).injections = some (q ++ [⟨m, id, ty⟩]) := by
  unfold enqueueInjection
  rw [h]

/-- Shared characterization of `cancel` on a queued task (bg-task-runner.ts
lines 365-380): returns true, leaves the task cancelled with the given
reason, removes it from the pending queue, and appends exactly one
`task_cancelled` injection. -/
theorem cancel_queued_spec (s : RunnerState) (id : Nat) (reason : Option String)
    (t : BgTask) (q : List InjectionItem) (hget : getTask s id = some t)
    (ht : t.status = .queued) (hinj : s.injections = some q) :
    (cancel s id reason).1 = true
    ∧ (∃ u, getTask (cancel s id reason).2 id = some u ∧ u.status = .cancelled
        ∧ u.cancelReason = reason)
    ∧ (∀ p ∈ (cancel s id reason).2.pendingQueue, p.1 ≠ id)
    ∧ (∃ msg, (cancel s id reason).2.injections = some (q ++ [⟨msg, id, .task_cancelled⟩])) := by
  have hg1 : getTask { s with pendingQueue := s.pendingQueue.filter (fun p => p.1 != id) } id
      = some t := hget
  have hg2 : getTask (updateTask
      { s with pendingQueue := s.pendingQueue.filter (fun p => p.1 != id) } id
      (fun u => { u with status := .cancelled, cancelReason := reason })) id
      = some { t with status := .cancelled, cancelReason := reason } := by
    rw [getTask_updateTask_self
      { s with pendingQueue := s.pendingQueue.filter (fun p => p.1 != id) } id
      (fun u => { u with status := .cancelled, cancelReason := reason }) (fun _ => rfl), hg1]
    rfl
  have hinj2 : (updateTask
      { s with pendingQueue := s.pendingQueue.filter (fun p => p.1 != id) } id
      (fun u => { u with status := .cancelled, cancelReason := reason })).injections
      = some q := hinj
  have hcan0 : cancel s id reason = (true,
      enqueueInjection (updateTask
        { s with pendingQueue := s.pendingQueue.filter (fun p => p.1 != id) } id
        (fun u => { u with status := .cancelled, cancelReason := reason })) id
        (buildMessage { t with status := .cancelled, cancelReason := reason })
        InjectionType.task_cancelled) := by
    simp only [cancel, hget, ht, reduceIte]
    rw [hg2]
  refine ⟨by rw [hcan0], ?_, ?_, ?_⟩
  · refine ⟨{ t with status := .cancelled, cancelReason := reason }, ?_, rfl, rfl⟩
    rw [hcan0]
    show getTask (enqueueInjection _ id _ _) id = _
    rw [getTask_enqueueInjection]
    exact hg2
  · intro p hp
    rw [hcan0] at hp
    have hp1 : p ∈ (enqueueInjection (updateTask
        { s with pendingQueue := s.pendingQueue.filter (fun p => p.1 != id) } id
        (fun u => { u with status := .cancelled, cancelReason := reason })) id
        (buildMessage { t with status := .cancelled, cancelReason := reason })
        InjectionType.task_cancelled).pendingQueue := hp
    rw [pendingQueue_enqueueInjection] at hp1
    have hp2 : p ∈ s.pendingQueue.filter (fun p => p.1 != id) := hp1
    have := (List.mem_filter.mp hp2).2
    simpa using this
  · refine ⟨buildMessage { t with status := .cancelled, cancelReason := reason }, ?_⟩
    rw [hcan0]
    exact injections_enqueueInjection _ _ _ _ q hinj2

/-- C4: on a queued task, `cancel` returns true, removes the task from the
pending queue (and `drainQueue` never touches a task outside the pending
queue, so the task is never dispatched to running), marks it cancelled
with the given reason, and appends exactly one `task_cancelled` injection;
on a task in a terminal status it returns false and leaves the state
unchanged. -/
theorem C4_cancel_queued_vs_terminal :
    (∀ s id reason t q, getTask s id = some t → t.status = .queued →
      s.injections = some q →
      (cancel s id reason).1 = true
      ∧ (∃ u, getTask (cancel s id reason).2 id = some u ∧ u.status = .cancelled
          ∧ u.cancelReason = reason)
      ∧ (∀ p ∈ (cancel s id reason).2.pendingQueue, p.1 ≠ id)
      ∧ (∃ msg, (cancel s id reason).2.injections = some (q ++ [⟨msg, id, .task_cancelled⟩])))
    ∧ (∀ s id, (∀ p ∈ s.pendingQueue, p.1 ≠ id) →
        getTask (drainQueue s) id = getTask s id)
    ∧ (∀ s id reason t, getTask s id = some t →
        t.status = .completed ∨ t.status = .failed ∨ t.status = .cancelled →
        cancel s id reason = (false, s)) := by
  refine ⟨?_, getTask_drainQueue_of_not_mem, ?_⟩
  · intro s id reason t q hget ht hinj
    exact cancel_queued_spec s id reason t q hget ht hinj
  · intro s id reason t hget hst
    have h1 : ¬ t.status = .queued := by
      rcases hst with h | h | h <;> simp [h]
    have h2 : t.status ≠ .running := by
      rcases hst with h | h | h <;> simp [h]
    simp only [cancel, hget, h1, reduceIte]
    rw [if_pos h2]

/-- Witness for C4: a queued task in a concrete runner with no capacity
(`maxConcurrent = 0`, so the started task stays queued) is cancelled;
a completed task is not. -/
theorem C4_cancel_queued_vs_terminal_witness :
    ((cancel c6TraceA 0 (some "nixed")).1 = true
      ∧ (∃ u, getTask (cancel c6TraceA 0 (some "nixed")).2 0 = some u
          ∧ u.status = .cancelled ∧ u.cancelReason = some "nixed"))
    ∧ cancel c5TraceB 0 none = (false, c5TraceB) := by
  constructor
  · have h := C4_cancel_queued_vs_terminal.1 c6TraceA 0 (some "nixed")
      (Option.get (getTask c6TraceA 0) (by decide)) [] (by decide) (by decide) (by decide)
    exact ⟨h.1, h.2.1⟩
  · exact C4_cancel_queued_vs_terminal.2.2 c5TraceB 0 none
      (Option.get (getTask c5TraceB 0) (by decide)) (by decide) (by decide)

/-! ## Claim C7 — retry semantics -/

/-- C7: `bg_task_retry` succeeds exactly on failed or cancelled tasks, and
the new task (looked up by the fresh id in the resulting state, through
`taskCore`, which drops only the run-time mutable fields) carries the
original template, the description with the ` (retry #N)` suffix, the
original priority, the modified-or-original prompt, the original skills,
`retryCount + 1`, the original redo history, and the original resource
limits.  The freshness hypothesis (ids below `nextId`) and the
defined-limit hypotheses record how tasks created by `start` always look.
On a task in any other status the tool reports an error and the state is
unchanged. -/
theorem C7_retry_semantics :
    (∀ s id mp t, getTask s id = some t →
      (t.status = .failed ∨ t.status = .cancelled) →
      (∀ u ∈ s.tasks, u.id < s.nextId) →
      t.resourceLimits.maxToolCalls.isSome = true →
      t.resourceLimits.maxSteps.isSome = true →
      (bgTaskRetry s id mp).1 = .ok s.nextId (t.retryCount + 1)
      ∧ (getTask (bgTaskRetry s id mp).2 s.nextId).map taskCore =
          some (t.templateId,
            t.description ++ " (retry #" ++ toString (t.retryCount + 1) ++ ")",
            t.priority, mp.getD t.prompt, t.skills, t.retryCount + 1,
            t.redoHistory, t.resourceLimits))
    ∧ (∀ s id mp t, getTask s id = some t →
        t.status ≠ .failed → t.status ≠ .cancelled →
        ∃ msg, bgTaskRetry s id mp = (.err msg, s))
    ∧ (∀ s id mp, getTask s id = none →
        ∃ msg, bgTaskRetry s id mp = (.err msg, s)) := by
  refine ⟨?_, ?_, ?_⟩
  · intro s id mp t hget hst hfresh hmt hms
    have hcond : ¬ (t.status ≠ .failed ∧ t.status ≠ .cancelled) := by
      rcases hst with h | h <;> simp [h]
    have hret : bgTaskRetry s id mp =
        (.ok (startTask s t.templateId (mp.getD t.prompt)
            (t.description ++ " (retry #" ++ toString (t.retryCount + 1) ++ ")")
            (some { priority := some t.priority, limits := some t.resourceLimits,
                    skills := some t.skills, retryCount := some (t.retryCount + 1),
                    redoHistory := some t.redoHistory })).1 (t.retryCount + 1),
         (startTask s t.templateId (mp.getD t.prompt)
            (t.description ++ " (retry #" ++ toString (t.retryCount + 1) ++ ")")
            (some { priority := some t.priority, limits := some t.resourceLimits,
                    skills := some t.skills, retryCount := some (t.retryCount + 1),
                    redoHistory := some t.redoHistory })).2) := by
      simp only [bgTaskRetry, hget]
      rw [if_neg hcond]
    rw [hret]
    refine ⟨rfl, ?_⟩
    rw [show (startTask s t.templateId (mp.getD t.prompt)
          (t.description ++ " (retry #" ++ toString (t.retryCount + 1) ++ ")")
          (some { priority := some t.priority, limits := some t.resourceLimits,
                  skills := some t.skills, retryCount := some (t.retryCount + 1),
                  redoHistory := some t.redoHistory })).2 = drainQueue
        { s with
            tasks := s.tasks ++ [{
              id := s.nextId
              templateId := t.templateId
              description := t.description ++ " (retry #" ++ toString (t.retryCount + 1) ++ ")"
              status := .queued
              priority := t.priority
              prompt := mp.getD t.prompt
              skills := t.skills
              retryCount := t.retryCount + 1
              redoHistory := t.redoHistory
              resourceLimits :=
                { maxToolCalls := some (t.resourceLimits.maxToolCalls.getD s.defaultMaxToolCalls)
                  maxSteps := some (t.resourceLimits.maxSteps.getD s.defaultMaxSteps)
                  idleTimeoutMs := t.resourceLimits.idleTimeoutMs }
              resourceUsage := ⟨0, 0, 0⟩
              result := none
              error := none
              cancelReason := none
              agentAlive := false }]
            nextId := s.nextId + 1
            pendingQueue := sortByPrio (s.pendingQueue ++ [(s.nextId, t.priority)]) }
      from rfl]
    rw [taskCore_drainQueue]
    obtain ⟨a, ha⟩ := Option.isSome_iff_exists.mp hmt
    obtain ⟨b, hb⟩ := Option.isSome_iff_exists.mp hms
    have hfind : getTask
        { s with
            tasks := s.tasks ++ [{
              id := s.nextId
              templateId := t.templateId
              description := t.description ++ " (retry #" ++ toString (t.retryCount + 1) ++ ")"
              status := .queued
              priority := t.priority
              prompt := mp.getD t.prompt
              skills := t.skills
              retryCount := t.retryCount + 1
              redoHistory := t.redoHistory
              resourceLimits :=
                { maxToolCalls := some (t.resourceLimits.maxToolCalls.getD s.defaultMaxToolCalls)
                  maxSteps := some (t.resourceLimits.maxSteps.getD s.defaultMaxSteps)
                  idleTimeoutMs := t.resourceLimits.idleTimeoutMs }
              resourceUsage := ⟨0, 0, 0⟩
              result := none
              error := none
              cancelReason := none
              agentAlive := false }]
            nextId := s.nextId + 1
            pendingQueue := sortByPrio (s.pendingQueue ++ [(s.nextId, t.priority)]) }
        s.nextId = some {
          id := s.nextId
          templateId := t.templateId
          description := t.description ++ " (retry #" ++ toString (t.retryCount + 1) ++ ")"
          status := .queued
          priority := t.priority
          prompt := mp.getD t.prompt
          skills := t.skills
          retryCount := t.retryCount + 1
          redoHistory := t.redoHistory
          resourceLimits :=
            { maxToolCalls := some (t.resourceLimits.maxToolCalls.getD s.defaultMaxToolCalls)
              maxSteps := some (t.resourceLimits.maxSteps.getD s.defaultMaxSteps)
              idleTimeoutMs := t.resourceLimits.idleTimeoutMs }
          resourceUsage := ⟨0, 0, 0⟩
          result := none
          error := none
          cancelReason := none
          agentAlive := false } := by
      show List.find? _ (s.tasks ++ [_]) = _
      exact find?_append_fresh s.tasks _ s.nextId rfl (fun u hu => Nat.ne_of_lt (hfresh u hu))
    rw [hfind, Option.map_some']
    cases hrl : t.resourceLimits with
    | mk mtc mst idle =>
      rw [hrl] at ha hb
      simp only at ha hb
      simp [taskCore, ha, hb]
  · intro s id mp t hget h1 h2
    refine ⟨"只能重试 failed/cancelled 任务", ?_⟩
    simp only [bgTaskRetry, hget]
    rw [if_pos ⟨h1, h2⟩]
  · intro s id mp hget
    refine ⟨"任务 " ++ toString id ++ " 不存在", ?_⟩
    simp only [bgTaskRetry, hget]

/-- Witness for C7: retrying the concretely cancelled task 0 produces task
2 with `retryCount = 1` and the inherited fields; retrying a completed
task fails. -/
theorem C7_retry_semantics_witness :
    ((bgTaskRetry c7Trace 0 none).1 = .ok c7Trace.nextId
        ((Option.get (getTask c7Trace 0) (by decide)).retryCount + 1))
    ∧ (∃ msg, bgTaskRetry c5TraceB 0 none = (.err msg, c5TraceB)) :=
  ⟨(C7_retry_semantics.1 c7Trace 0 none (Option.get (getTask c7Trace 0) (by decide))
      (by decide) (by decide) (by decide) (by decide) (by decide)).1,
   C7_retry_semantics.2.1 c5TraceB 0 none (Option.get (getTask c5TraceB 0) (by decide))
      (by decide) (by decide) (by decide)⟩

/-! ## Claim C5 — one injection per termination, chat re-entry injections -/

theorem finishStatus_pendingQueue (s : RunnerState) (id : Nat) (o : RunOutcome) :
    (finishStatus s id o).pendingQueue = s.pendingQueue := by
  cases o <;> rfl

theorem finishStatus_injections (s : RunnerState) (id : Nat) (o : RunOutcome) :
    (finishStatus s id o).injections = s.injections := by
  cases o <;> rfl

theorem finishStatus_getTask (s : RunnerState) (id : Nat) (o : RunOutcome) (t : BgTask)
    (hget : getTask s id = some t) :
    ∃ u, getTask (finishStatus s id o) id = some u
      ∧ u.status ≠ .queued ∧ u.status ≠ .running := by
  have hsplit : ∀ (u : BgTask), ¬ (u.status ≠ .cancelled ∧ u.status ≠ .failed) →
      u.status = .cancelled ∨ u.status = .failed := by
    intro u h
    by_cases h1 : u.status = .cancelled
    · exact Or.inl h1
    · by_cases h2 : u.status = .failed
      · exact Or.inr h2
      · exact absurd ⟨h1, h2⟩ h
  cases o with
  | finished text =>
    by_cases h : t.status ≠ .cancelled ∧ t.status ≠ .failed
    · refine ⟨{ t with status := .completed, result := some text }, ?_, by simp, by simp⟩
      unfold finishStatus
      rw [getTask_updateTask_self _ _ _
        (by intro u; by_cases hu : u.status ≠ TaskStatus.cancelled ∧ u.status ≠ TaskStatus.failed <;>
          simp [hu]), hget]
      simp [h]
    · have hst := hsplit t h
      refine ⟨t, ?_, ?_, ?_⟩
      · unfold finishStatus
        rw [getTask_updateTask_self _ _ _
          (by intro u; by_cases hu : u.status ≠ TaskStatus.cancelled ∧ u.status ≠ TaskStatus.failed <;>
            simp [hu]), hget]
        simp [h]
      · rcases hst with h1 | h1 <;> simp [h1]
      · rcases hst with h1 | h1 <;> simp [h1]
  | threw msg =>
    by_cases h : t.status ≠ .cancelled ∧ t.status ≠ .failed
    · refine ⟨{ t with status := .failed, error := some msg }, ?_, by simp, by simp⟩
      unfold finishStatus
      rw [getTask_updateTask_self _ _ _
        (by intro u; by_cases hu : u.status ≠ TaskStatus.cancelled ∧ u.status ≠ TaskStatus.failed <;>
          simp [hu]), hget]
      simp [h]
    · have hst := hsplit t h
      refine ⟨t, ?_, ?_, ?_⟩
      · unfold finishStatus
        rw [getTask_updateTask_self _ _ _
          (by intro u; by_cases hu : u.status ≠ TaskStatus.cancelled ∧ u.status ≠ TaskStatus.failed <;>
            simp [hu]), hget]
        simp [h]
      · rcases hst with h1 | h1 <;> simp [h1]
      · rcases hst with h1 | h1 <;> simp [h1]

theorem finishKeepAlive_pendingQueue (s : RunnerState) (id : Nat) :
    (finishKeepAlive s id).pendingQueue = s.pendingQueue := by
  unfold finishKeepAlive
  rcases h : getTask s id with _ | t
  · rfl
  · simp only [h]
    split <;> rfl

theorem finishKeepAlive_injections (s : RunnerState) (id : Nat) :
    (finishKeepAlive s id).injections = s.injections := by
  unfold finishKeepAlive
  rcases h : getTask s id with _ | t
  · rfl
  · simp only [h]
    split <;> rfl

theorem finishKeepAlive_getTask (s : RunnerState) (id : Nat) (t : BgTask)
    (hget : getTask s id = some t) :
    ∃ u, getTask (finishKeepAlive s id) id = some u ∧ u.status = t.status := by
  unfold finishKeepAlive
  simp only [hget]
  by_cases h : t.status = TaskStatus.completed
  · rw [if_pos h]
    refine ⟨{ t with agentAlive := true }, ?_, rfl⟩
    rw [getTask_updateTask_self _ _ _ (by intro u; rfl), hget]
    rfl
  · rw [if_neg h]
    refine ⟨{ t with agentAlive := false }, ?_, rfl⟩
    show getTask (updateTask s id (fun u => { u with agentAlive := false })) id = _
    rw [getTask_updateTask_self _ _ _ (by intro u; rfl), hget]
    rfl

/-- C5 (amended): the run-termination step enqueues exactly one injection,
typed `task_result` / `task_cancelled` / `task_failed` by the final
status; cancelling a queued task enqueues exactly one `task_cancelled`
item while cancelling a running task enqueues none at that step (its item
comes from the run's own termination); the `chatAsync` completion paths
enqueue exactly one `chat_result` / `chat_failed` item; and the resource-
limit failure step and the synchronous `chat` completion paths enqueue
none — in particular a synchronous `chat` re-entry completes without any
`chat_result` item, contrary to the claim as stated. -/
theorem C5_injection_discipline :
    (∀ s id outcome t q, getTask s id = some t → s.injections = some q →
      (∀ p ∈ s.pendingQueue, p.1 ≠ id) →
      ∃ u msg, getTask (finishRun s id outcome) id = some u
        ∧ u.status ≠ .queued ∧ u.status ≠ .running
        ∧ (finishRun s id outcome).injections =
            some (q ++ [⟨msg, id, runInjectionType u.status⟩]))
    ∧ (∀ s id reason t q, getTask s id = some t → t.status = .queued →
        s.injections = some q →
        ∃ msg, (cancel s id reason).2.injections = some (q ++ [⟨msg, id, .task_cancelled⟩]))
    ∧ (∀ s id reason t, getTask s id = some t → t.status = .running →
        (cancel s id reason).2.injections = s.injections)
    ∧ (∀ s id text t q, getTask s id = some t → s.injections = some q →
        ∃ msg, (chatAsyncFinishOk s id text).injections =
          some (q ++ [⟨msg, id, .chat_result⟩]))
    ∧ (∀ s id prev m t q, getTask s id = some t → s.injections = some q →
        ∃ msg, (chatAsyncFinishErr s id prev m).injections =
          some (q ++ [⟨msg, id, .chat_failed⟩]))
    ∧ (∀ s id text, (chatSyncFinishOk s id text).injections = s.injections)
    ∧ (∀ s id prev, (chatSyncFinishErr s id prev).injections = s.injections)
    ∧ (∀ s id lt, (handleResourceLimit s id lt).injections = s.injections)
    ∧ (∀ s id, (handleIdleTimeout s id).injections = s.injections) := by
  refine ⟨?_, ?_, ?_, ?_, ?_, fun _ _ _ => rfl, fun _ _ _ => rfl, ?_, ?_⟩
  · intro s id outcome t q hget hinj hnm
    have hdef : finishRun s id outcome = drainQueue (finishInject
        { finishKeepAlive (finishStatus s id outcome) id with
          pendingMessages := (finishKeepAlive (finishStatus s id outcome) id).pendingMessages.filter
            (fun p => p.1 != id) } id) := rfl
    obtain ⟨u1, hg1, hq1, hr1⟩ := finishStatus_getTask s id outcome t hget
    obtain ⟨u2, hg2, hs2⟩ := finishKeepAlive_getTask (finishStatus s id outcome) id u1 hg1
    have hg3 : getTask ({ finishKeepAlive (finishStatus s id outcome) id with
        pendingMessages := (finishKeepAlive (finishStatus s id outcome) id).pendingMessages.filter
          (fun p => p.1 != id) }) id = some u2 := hg2
    have hinj3 : ({ finishKeepAlive (finishStatus s id outcome) id with
        pendingMessages := (finishKeepAlive (finishStatus s id outcome) id).pendingMessages.filter
          (fun p => p.1 != id) } : RunnerState).injections = some q := by
      show (finishKeepAlive (finishStatus s id outcome) id).injections = some q
      rw [finishKeepAlive_injections, finishStatus_injections]
      exact hinj
    have hq3 : ({ finishKeepAlive (finishStatus s id outcome) id with
        pendingMessages := (finishKeepAlive (finishStatus s id outcome) id).pendingMessages.filter
          (fun p => p.1 != id) } : RunnerState).pendingQueue = s.pendingQueue := by
      show (finishKeepAlive (finishStatus s id outcome) id).pendingQueue = s.pendingQueue
      rw [finishKeepAlive_pendingQueue, finishStatus_pendingQueue]
    have hInjSpec : (finishInject { finishKeepAlive (finishStatus s id outcome) id with
        pendingMessages := (finishKeepAlive (finishStatus s id outcome) id).pendingMessages.filter
          (fun p => p.1 != id) } id).injections =
        some (q ++ [⟨buildMessage u2, id, runInjectionType u2.status⟩]) := by
      unfold finishInject
      simp only [hg3]
      exact injections_enqueueInjection _ _ _ _ q hinj3
    have hGetSpec : getTask (finishInject { finishKeepAlive (finishStatus s id outcome) id with
        pendingMessages := (finishKeepAlive (finishStatus s id outcome) id).pendingMessages.filter
          (fun p => p.1 != id) } id) id = some u2 := by
      unfold finishInject
      simp only [hg3]
      rw [getTask_enqueueInjection]
      exact hg3
    have hQSpec : (finishInject { finishKeepAlive (finishStatus s id outcome) id with
        pendingMessages := (finishKeepAlive (finishStatus s id outcome) id).pendingMessages.filter
          (fun p => p.1 != id) } id).pendingQueue = s.pendingQueue := by
      unfold finishInject
      simp only [hg3]
      rw [pendingQueue_enqueueInjection]
      exact hq3
    refine ⟨u2, buildMessage u2, ?_, hs2 ▸ hq1, hs2 ▸ hr1, ?_⟩
    · rw [hdef]
      rw [getTask_drainQueue_of_not_mem _ _ (by rw [hQSpec]; exact hnm)]
      exact hGetSpec
    · rw [hdef]
      rw [injections_drainQueue]
      exact hInjSpec
  · intro s id reason t q hget ht hinj
    exact (cancel_queued_spec s id reason t q hget ht hinj).2.2.2
  · intro s id reason t hget hrun
    have h1 : ¬ t.status = .queued := by simp [hrun]
    have h2 : ¬ t.status ≠ .running := by simp [hrun]
    simp only [cancel, hget, h1, reduceIte]
    rw [if_neg h2]
    rfl
  · intro s id text t q hget hinj
    have hg1 : getTask (updateTask s id
        (fun u => { u with status := .completed, result := some text })) id =
        some { t with status := .completed, result := some text } := by
      rw [getTask_updateTask_self _ _ _ (by intro u; rfl), hget]
      rfl
    refine ⟨buildChatMessage { t with status := .completed, result := some text }
      (some text) none, ?_⟩
    unfold chatAsyncFinishOk
    simp only [hg1]
    exact injections_enqueueInjection _ _ _ _ q hinj
  · intro s id prev m t q hget hinj
    have hg1 : getTask (updateTask s id
        (fun u => { u with status := prev, error := some m })) id =
        some { t with status := prev, error := some m } := by
      rw [getTask_updateTask_self _ _ _ (by intro u; rfl), hget]
      rfl
    refine ⟨buildChatMessage { t with status := prev, error := some m } none (some m), ?_⟩
    unfold chatAsyncFinishErr
    simp only [hg1]
    exact injections_enqueueInjection _ _ _ _ q hinj
  · intro s id lt
    unfold handleResourceLimit
    rcases h : getTask s id with _ | t
    · rfl
    · simp only [h]
      split <;> rfl
  · intro s id
    unfold handleIdleTimeout
    rcases h : getTask s id with _ | t
    · rfl
    · simp only [h]
      split <;> rfl

/-- Counterexample to C5 as stated: in the concrete trace, task 0's run
termination enqueued exactly one `task_result` item, a synchronous `chat`
re-entry then began (returning true) and completed (status back to
completed), yet the injection queue is unchanged — the chat re-entry
enqueued zero items of type `chat_result` or `chat_failed`. -/
theorem C5_sync_chat_enqueues_nothing :
    (chatBegin c5TraceB 0).1 = true
    ∧ (getTask c5TraceD 0).map (fun u => u.status) = some .completed
    ∧ c5TraceD.injections = c5TraceB.injections
    ∧ (c5TraceB.injections.map List.length) = some 1 := by
  decide

/-- Witness for C5 (amended): the termination of concrete task 0 appended
exactly one `task_result` injection. -/
theorem C5_injection_discipline_witness :
    ∃ u msg, getTask (finishRun c5TraceA 0 (.finished "done")) 0 = some u
      ∧ u.status ≠ .queued ∧ u.status ≠ .running
      ∧ (finishRun c5TraceA 0 (.finished "done")).injections =
          some ([] ++ [⟨msg, 0, runInjectionType u.status⟩]) :=
  C5_injection_discipline.1 c5TraceA 0 (.finished "done")
    (Option.get (getTask c5TraceA 0) (by decide)) [] (by decide) (by decide) (by decide)

/-! ## Claim C1 — the `maxConcurrent` bound -/

theorem runningCount_updateTask_le_of (s : RunnerState) (id : Nat) (f : BgTask → BgTask)
    (h : ∀ t, (f t).status = TaskStatus.running → t.status = TaskStatus.running) :
    runningCount (updateTask s id f) ≤ runningCount s := by
  refine countP_updateFirst_le_of _ s.tasks id f ?_
  intro t ht
  have : (f t).status = TaskStatus.running := by simpa using ht
  simpa using h t this

theorem runningCount_updateTask_eq_of (s : RunnerState) (id : Nat) (f : BgTask → BgTask)
    (h : ∀ t, (f t).status = t.status) :
    runningCount (updateTask s id f) = runningCount s := by
  refine countP_updateFirst_eq_of _ s.tasks id f ?_
  intro t
  simp [h t]

theorem runningCount_enqueueInjection (s : RunnerState) (id : Nat) (m : String)
    (ty : InjectionType) :
    runningCount (enqueueInjection s id m ty) = runningCount s := by
  unfold enqueueInjection
  rcases h : s.injections with _ | q <;> simp [h, runningCount]

theorem maxConcurrent_enqueueInjection (s : RunnerState) (id : Nat) (m : String)
    (ty : InjectionType) :
    (enqueueInjection s id m ty).maxConcurrent = s.maxConcurrent := by
  unfold enqueueInjection
  rcases h : s.injections with _ | q <;> simp [h]

theorem runningCount_finishStatus_le (s : RunnerState) (id : Nat) (o : RunOutcome) :
    runningCount (finishStatus s id o) ≤ runningCount s := by
  cases o with
  | finished text =>
    refine runningCount_updateTask_le_of s id _ ?_
    intro t ht
    by_cases h : t.status ≠ .cancelled ∧ t.status ≠ .failed
    · simp [h] at ht
    · simpa [h] using ht
  | threw msg =>
    refine runningCount_updateTask_le_of s id _ ?_
    intro t ht
    by_cases h : t.status ≠ .cancelled ∧ t.status ≠ .failed
    · simp [h] at ht
    · simpa [h] using ht

theorem maxConcurrent_finishStatus (s : RunnerState) (id : Nat) (o : RunOutcome) :
    (finishStatus s id o).maxConcurrent = s.maxConcurrent := by
  cases o <;> rfl

theorem runningCount_finishKeepAlive (s : RunnerState) (id : Nat) :
    runningCount (finishKeepAlive s id) = runningCount s := by
  unfold finishKeepAlive
  rcases h : getTask s id with _ | t
  · rfl
  · simp only [h]
    split
    · exact runningCount_updateTask_eq_of s id _ (fun _ => rfl)
    · show runningCount { updateTask s id _ with agents := _ } = _
      have : runningCount { updateTask s id (fun u => { u with agentAlive := false }) with
          agents := (updateTask s id (fun u => { u with agentAlive := false })).agents.filter
            (fun a => a != id) } =
          runningCount (updateTask s id (fun u => { u with agentAlive := false })) := rfl
      rw [this]
      exact runningCount_updateTask_eq_of s id _ (fun _ => rfl)

theorem maxConcurrent_finishKeepAlive (s : RunnerState) (id : Nat) :
    (finishKeepAlive s id).maxConcurrent = s.maxConcurrent := by
  unfold finishKeepAlive
  rcases h : getTask s id with _ | t
  · rfl
  · simp only [h]
    split <;> rfl

theorem runningCount_finishInject (s : RunnerState) (id : Nat) :
    runningCount (finishInject s id) = runningCount s := by
  unfold finishInject
  rcases h : getTask s id with _ | t
  · rfl
  · simp only [h]
    exact runningCount_enqueueInjection s id _ _

theorem maxConcurrent_finishInject (s : RunnerState) (id : Nat) :
    (finishInject s id).maxConcurrent = s.maxConcurrent := by
  unfold finishInject
  rcases h : getTask s id with _ | t
  · rfl
  · simp only [h]
    exact maxConcurrent_enqueueInjection s id _ _

theorem runningCount_handleResourceLimit_le (s : RunnerState) (id : Nat) (lt : String) :
    runningCount (handleResourceLimit s id lt) ≤ runningCount s := by
  unfold handleResourceLimit
  rcases h : getTask s id with _ | t
  · exact le_refl _
  · simp only [h]
    split
    · exact le_refl _
    · exact runningCount_updateTask_le_of s id _ (fun u hu => by simp at hu)

/-- C1 (amended): the `maxConcurrent` bound is preserved by `start` (whose
dispatch loop stops at capacity), by run termination, and by every other
operation of the runner — cancellation, the watchdog handlers,
`sendMessage`, and the chat *completion* paths — but the chat *entry*
(`chat` / `chatAsync`, modelled by `chatBegin`) flips a completed task to
running without consulting the bound, and can therefore only be bounded
by `runningCount + 1`; a chat re-entry concurrent with a full runner
exceeds `maxConcurrent` (see the counterexample). -/
theorem C1_bound_preserved_except_chat_entry :
    (∀ s tid p d o, runningCount s ≤ s.maxConcurrent →
      runningCount (startTask s tid p d o).2 ≤ s.maxConcurrent)
    ∧ (∀ s id outcome, runningCount s ≤ s.maxConcurrent →
      runningCount (finishRun s id outcome) ≤ s.maxConcurrent)
    ∧ (∀ s id reason, runningCount (cancel s id reason).2 ≤ runningCount s)
    ∧ (∀ s id, runningCount (toolExecutedMain s id) ≤ runningCount s)
    ∧ (∀ s id, runningCount (stepCompleteMain s id) ≤ runningCount s)
    ∧ (∀ s id n, runningCount (tokenUsageMain s id n) = runningCount s)
    ∧ (∀ s id, runningCount (handleIdleTimeout s id) ≤ runningCount s)
    ∧ (∀ s id m, runningCount (sendMessage s id m).2 = runningCount s)
    ∧ (∀ s id, runningCount (toolExecutedChat s id) = runningCount s)
    ∧ (∀ s id n, runningCount (tokenUsageChat s id n) = runningCount s)
    ∧ (∀ s id text, runningCount (chatAsyncFinishOk s id text) ≤ runningCount s)
    ∧ (∀ s id prev m, prev ≠ .running →
        runningCount (chatAsyncFinishErr s id prev m) ≤ runningCount s)
    ∧ (∀ s id text, runningCount (chatSyncFinishOk s id text) ≤ runningCount s)
    ∧ (∀ s id prev, prev ≠ .running →
        runningCount (chatSyncFinishErr s id prev) ≤ runningCount s)
    ∧ (∀ s id, runningCount (chatBegin s id).2 ≤ runningCount s + 1) := by
  refine ⟨?_, ?_, ?_, ?_, ?_, ?_, ?_, ?_, ?_, ?_, ?_, ?_, ?_, ?_, ?_⟩
  · intro s tid p d o hb
    show runningCount (drainQueue _) ≤ s.maxConcurrent
    refine runningCount_drainQueue_le _ ?_
    show List.countP _ (s.tasks ++ [_]) ≤ s.maxConcurrent
    rw [List.countP_append]
    simpa [runningCount, List.countP_cons] using hb
  · intro s id outcome hb
    show runningCount (drainQueue (finishInject _ id)) ≤ s.maxConcurrent
    have h1 : runningCount (finishInject ({ finishKeepAlive (finishStatus s id outcome) id with
        pendingMessages := (finishKeepAlive (finishStatus s id outcome) id).pendingMessages.filter
          (fun p => p.1 != id) }) id) ≤ runningCount s := by
      rw [runningCount_finishInject]
      show runningCount (finishKeepAlive (finishStatus s id outcome) id) ≤ runningCount s
      rw [runningCount_finishKeepAlive]
      exact runningCount_finishStatus_le s id outcome
    have h2 : (finishInject ({ finishKeepAlive (finishStatus s id outcome) id with
        pendingMessages := (finishKeepAlive (finishStatus s id outcome) id).pendingMessages.filter
          (fun p => p.1 != id) }) id).maxConcurrent = s.maxConcurrent := by
      rw [maxConcurrent_finishInject]
      show (finishKeepAlive (finishStatus s id outcome) id).maxConcurrent = s.maxConcurrent
      rw [maxConcurrent_finishKeepAlive, maxConcurrent_finishStatus]
    calc runningCount (drainQueue _) ≤ _ := runningCount_drainQueue_le _ (by rw [h2]; omega)
    _ = s.maxConcurrent := h2
  · intro s id reason
    unfold cancel
    rcases hget : getTask s id with _ | t
    · exact le_refl _
    · simp only []
      split
      · show runningCount (match getTask (updateTask _ id _) id with
          | some u => enqueueInjection _ id (buildMessage u) InjectionType.task_cancelled
          | none => _) ≤ runningCount s
        rcases hg2 : getTask (updateTask
            { s with pendingQueue := s.pendingQueue.filter (fun q => q.1 != id) } id
            (fun u => { u with status := .cancelled, cancelReason := reason })) id with _ | u
        · simp only [hg2]
          exact runningCount_updateTask_le_of _ id _ (fun u hu => by simp at hu)
        · simp only [hg2]
          rw [runningCount_enqueueInjection]
          exact runningCount_updateTask_le_of _ id _ (fun u hu => by simp at hu)
      · split
        · exact le_refl _
        · exact runningCount_updateTask_le_of s id _ (fun u hu => by simp at hu)
  · intro s id
    unfold toolExecutedMain
    rcases hg : getTask (updateTask s id (fun t =>
        { t with resourceUsage := { t.resourceUsage with
            toolCalls := t.resourceUsage.toolCalls + 1 } })) id with _ | t
    · simp only [hg]
      exact le_of_eq (runningCount_updateTask_eq_of s id _ (fun _ => rfl))
    · simp only [hg]
      have hbase : runningCount (updateTask s id (fun t =>
          { t with resourceUsage := { t.resourceUsage with
              toolCalls := t.resourceUsage.toolCalls + 1 } })) = runningCount s :=
        runningCount_updateTask_eq_of s id _ (fun _ => rfl)
      rcases t.resourceLimits.maxToolCalls with _ | m
      · simp only []
        exact le_of_eq hbase
      · simp only []
        split
        · exact le_trans (runningCount_handleResourceLimit_le _ id _) (le_of_eq hbase)
        · exact le_of_eq hbase
  · intro s id
    unfold stepCompleteMain
    rcases hg : getTask (updateTask s id (fun t =>
        { t with resourceUsage := { t.resourceUsage with
            steps := t.resourceUsage.steps + 1 } })) id with _ | t
    · simp only [hg]
      exact le_of_eq (runningCount_updateTask_eq_of s id _ (fun _ => rfl))
    · simp only [hg]
      have hbase : runningCount (updateTask s id (fun t =>
          { t with resourceUsage := { t.resourceUsage with
              steps := t.resourceUsage.steps + 1 } })) = runningCount s :=
        runningCount_updateTask_eq_of s id _ (fun _ => rfl)
      rcases t.resourceLimits.maxSteps with _ | m
      · simp only []
        exact le_of_eq hbase
      · simp only []
        split
        · exact le_trans (runningCount_handleResourceLimit_le _ id _) (le_of_eq hbase)
        · exact le_of_eq hbase
  · intro s id n
    exact runningCount_updateTask_eq_of s id _ (fun _ => rfl)
  · intro s id
    unfold handleIdleTimeout
    rcases hg : getTask s id with _ | t
    · exact le_refl _
    · simp only [hg]
      split
      · exact le_refl _
      · exact runningCount_updateTask_le_of s id _ (fun u hu => by simp at hu)
  · intro s id m
    unfold sendMessage
    split
    · rcases hg : getTask s id with _ | t
      · rfl
      · simp only [hg]
        split <;> rfl
    · rfl
  · intro s id
    exact runningCount_updateTask_eq_of s id _ (fun _ => rfl)
  · intro s id n
    exact runningCount_updateTask_eq_of s id _ (fun _ => rfl)
  · intro s id text
    unfold chatAsyncFinishOk
    rcases hg : getTask (updateTask s id (fun t =>
        { t with status := .completed, result := some text })) id with _ | t
    · simp only [hg]
      exact runningCount_updateTask_le_of s id _ (fun u hu => by simp at hu)
    · simp only [hg]
      rw [runningCount_enqueueInjection]
      exact runningCount_updateTask_le_of s id _ (fun u hu => by simp at hu)
  · intro s id prev m hprev
    unfold chatAsyncFinishErr
    rcases hg : getTask (updateTask s id (fun t =>
        { t with status := prev, error := some m })) id with _ | t
    · simp only [hg]
      exact runningCount_updateTask_le_of s id _ (fun u hu => absurd hu hprev)
    · simp only [hg]
      rw [runningCount_enqueueInjection]
      exact runningCount_updateTask_le_of s id _ (fun u hu => absurd hu hprev)
  · intro s id text
    exact runningCount_updateTask_le_of s id _ (fun u hu => by simp at hu)
  · intro s id prev hprev
    exact runningCount_updateTask_le_of s id _ (fun u hu => absurd hu hprev)
  · intro s id
    unfold chatBegin
    rcases hg : getTask s id with _ | t
    · simp only [hg]
      exact Nat.le_succ _
    · simp only [hg]
      split
      · exact Nat.le_succ _
      · split
        · exact le_trans
            (le_of_eq (runningCount_updateTask_eq_of s id
              (fun u => { u with agentAlive := false }) (fun _ => rfl)))
            (Nat.le_succ _)
        · exact countP_updateFirst_le_succ (fun t => t.status == TaskStatus.running)
            s.tasks id (fun u => { u with status := TaskStatus.running })

/-- Witness for C1 (amended): starting a task in a full (capacity-1)
concrete runner keeps the running count at the bound. -/
theorem C1_bound_preserved_except_chat_entry_witness :
    runningCount (startTask c1TraceC "executor" "job3" "demo3" none).2 ≤ 1
    ∧ runningCount (finishRun c1TraceC 1 (.finished "ok")) ≤ 1 :=
  ⟨C1_bound_preserved_except_chat_entry.1 c1TraceC "executor" "job3" "demo3" none (by decide),
   (C1_bound_preserved_except_chat_entry.2.1 c1TraceC 1 (.finished "ok") (by decide))⟩

/-- Counterexample to C1 as stated: with `maxConcurrent = 1`, a completed
task re-entered via chat while another task runs yields two running
tasks — the bound is not preserved by the chat re-entry paths.  The final
state is reached by genuine operations of the runner. -/
theorem C1_bound_violated_by_chat_reentry :
    Reachable (initState 1 120000 200 50) c1TraceD
    ∧ c1TraceD.maxConcurrent = 1
    ∧ runningCount c1TraceD = 2 := by
  refine ⟨?_, rfl, by decide⟩
  have h1 : Step (initState 1 120000 200 50) c1TraceA :=
    Step.startStep (initState 1 120000 200 50) "executor" "job" "demo" none
  have h2 : Step c1TraceA c1TraceB :=
    Step.finishRunStep c1TraceA 0 (.finished "done") (by decide)
  have h3 : Step c1TraceB c1TraceC :=
    Step.startStep c1TraceB "executor" "job2" "demo2" none
  have h4 : Step c1TraceC c1TraceD :=
    Step.chatBeginStep c1TraceC 0 (by decide)
  exact Relation.ReflTransGen.tail
    (Relation.ReflTransGen.tail (Relation.ReflTransGen.tail
      (Relation.ReflTransGen.single h1) h2) h3) h4

/-! ## Claim C3 — the `maxToolCalls` limit -/

/-- C3 (amended): the tool-call limit is enforced only by the *main run's*
`tool_executed` listener: there, when the incremented count reaches a
non-zero `maxToolCalls` the running task transitions to `failed` with a
non-empty error, and below the limit (or with a zero or absent limit) the
listener only increments the counter.  The *chat* listener increments
`toolCalls` unconditionally, with no limit check at all — so a chat
re-entry can push a running task's `toolCalls` strictly past
`maxToolCalls` (see the counterexample). -/
theorem C3_toolCalls_enforced_main_only :
    (∀ s id t m, getTask s id = some t →
      t.resourceLimits.maxToolCalls = some m → m ≠ 0 →
      t.status = TaskStatus.running → t.resourceUsage.toolCalls + 1 ≥ m →
      (getTask (toolExecutedMain s id) id).map
          (fun u => (u.status, u.resourceUsage.toolCalls, u.error.isSome)) =
        some (TaskStatus.failed, t.resourceUsage.toolCalls + 1, true))
    ∧ (∀ s id t m, getTask s id = some t →
      t.resourceLimits.maxToolCalls = some m →
      ¬ (m ≠ 0 ∧ t.resourceUsage.toolCalls + 1 ≥ m) →
      getTask (toolExecutedMain s id) id = some (bumpToolCalls t))
    ∧ (∀ s id t, getTask s id = some t →
      t.resourceLimits.maxToolCalls = none →
      getTask (toolExecutedMain s id) id = some (bumpToolCalls t))
    ∧ (∀ s id t, getTask s id = some t →
      getTask (toolExecutedChat s id) id = some (bumpToolCalls t)) := by
  refine ⟨?_, ?_, ?_, ?_⟩
  · intro s id t m hget hmax hm0 hst hge
    have h1 : getTask (updateTask s id (fun u =>
        { u with resourceUsage := { u.resourceUsage with
            toolCalls := u.resourceUsage.toolCalls + 1 } })) id = some (bumpToolCalls t) := by
      rw [getTask_updateTask_self _ _ _ (by intro u; rfl), hget]; rfl
    have hmax' : (bumpToolCalls t).resourceLimits.maxToolCalls = some m := hmax
    have hcond : m ≠ 0 ∧ (bumpToolCalls t).resourceUsage.toolCalls ≥ m := ⟨hm0, hge⟩
    simp only [toolExecutedMain, h1, hmax']
    rw [if_pos hcond]
    simp only [handleResourceLimit, h1]
    rw [if_neg (show ¬ (bumpToolCalls t).status ≠ TaskStatus.running from not_not_intro hst)]
    rw [getTask_updateTask_self _ _ _ (by intro u; rfl), h1]
    rfl
  · intro s id t m hget hmax hc
    have h1 : getTask (updateTask s id (fun u =>
        { u with resourceUsage := { u.resourceUsage with
            toolCalls := u.resourceUsage.toolCalls + 1 } })) id = some (bumpToolCalls t) := by
      rw [getTask_updateTask_self _ _ _ (by intro u; rfl), hget]; rfl
    have hmax' : (bumpToolCalls t).resourceLimits.maxToolCalls = some m := hmax
    simp only [toolExecutedMain, h1, hmax']
    rw [if_neg (show ¬ (m ≠ 0 ∧ (bumpToolCalls t).resourceUsage.toolCalls ≥ m) from
      fun hcc => hc ⟨hcc.1, hcc.2⟩)]
    exact h1
  · intro s id t hget hmax
    have h1 : getTask (updateTask s id (fun u =>
        { u with resourceUsage := { u.resourceUsage with
            toolCalls := u.resourceUsage.toolCalls + 1 } })) id = some (bumpToolCalls t) := by
      rw [getTask_updateTask_self _ _ _ (by intro u; rfl), hget]; rfl
    have hmax' : (bumpToolCalls t).resourceLimits.maxToolCalls = none := hmax
    simp only [toolExecutedMain, h1, hmax']
  · intro s id t hget
    unfold toolExecutedChat
    rw [getTask_updateTask_self _ _ _ (by intro u; rfl), hget]
    rfl

/-- Witness for C3 (amended): in a concrete runner whose task 0 runs with
`maxToolCalls = 1`, one `tool_executed` event on the main listener fails
the task with an error. -/
theorem C3_toolCalls_enforced_main_only_witness :
    (getTask (toolExecutedMain c3TraceA 0) 0).map
        (fun u => (u.status, u.resourceUsage.toolCalls, u.error.isSome)) =
      some (TaskStatus.failed, 1, true) :=
  C3_toolCalls_enforced_main_only.1 c3TraceA 0
    (Option.get (getTask c3TraceA 0) (by decide)) 1
    (by decide) (by decide) (by decide) (by decide) (by decide)

/-- Counterexample to C3 as stated: a completed task with `maxToolCalls = 1`
is re-entered via chat; two `tool_executed` events on the chat listener
leave it running with `toolCalls = 2 > 1` — the invariant
`toolCalls ≤ maxToolCalls` for running tasks is violated, and no
transition to `failed` occurs.  The state is reachable by genuine
runner operations. -/
theorem C3_limit_bypassed_by_chat_listener :
    Reachable (initState 5 120000 200 50) c3TraceD
    ∧ (getTask c3TraceD 0).map
        (fun u => (u.status, u.resourceUsage.toolCalls, u.resourceLimits.maxToolCalls)) =
      some (TaskStatus.running, 2, some 1) := by
  refine ⟨?_, by decide⟩
  have h1 : Step (initState 5 120000 200 50) c3TraceA :=
    Step.startStep (initState 5 120000 200 50) "executor" "job" "demo" (some (toolLimitOpts 1))
  have h2 : Step c3TraceA c3TraceB :=
    Step.finishRunStep c3TraceA 0 (.finished "done") (by decide)
  have h3 : Step c3TraceB c3TraceC :=
    Step.chatBeginStep c3TraceB 0 (by decide)
  have h4 : Step c3TraceC (toolExecutedChat c3TraceC 0) :=
    Step.toolChatStep c3TraceC 0
  have h5 : Step (toolExecutedChat c3TraceC 0) c3TraceD :=
    Step.toolChatStep (toolExecutedChat c3TraceC 0) 0
  exact Relation.ReflTransGen.tail (Relation.ReflTransGen.tail
    (Relation.ReflTransGen.tail (Relation.ReflTransGen.tail
      (Relation.ReflTransGen.single h1) h2) h3) h4) h5

/-! ## Claim C6 — priority + FIFO dispatch order -/

theorem queueLe_rankLe (a b : Nat × TaskPriority) (h : queueLe a b) : rankLe a b := by
  rcases h with h | ⟨h, _⟩
  · exact le_of_lt h
  · exact le_of_eq h

theorem mem_insertNew (x z : Nat × TaskPriority) (l : List (Nat × TaskPriority)) :
    z ∈ insertNew x l ↔ z = x ∨ z ∈ l := by
  induction l with
  | nil => simp [insertNew]
  | cons y ys ih =>
    simp only [insertNew]
    split
    · simp only [List.mem_cons, ih]
      tauto
    · simp only [List.mem_cons]

theorem insertByPrio_front (y : Nat × TaskPriority) (l : List (Nat × TaskPriority))
    (h : ∀ z ∈ l, rankLe y z) : insertByPrio y l = y :: l := by
  cases l with
  | nil => rfl
  | cons z zs =>
    simp only [insertByPrio]
    rw [if_pos (show PRIORITY_ORDER y.2 ≤ PRIORITY_ORDER z.2 from h z (List.mem_cons_self z zs))]

theorem insertNew_front (x : Nat × TaskPriority) (l : List (Nat × TaskPriority))
    (h : ∀ z ∈ l, ¬ rankLe z x) : insertNew x l = x :: l := by
  cases l with
  | nil => rfl
  | cons z zs =>
    simp only [insertNew]
    rw [if_neg (show ¬ PRIORITY_ORDER z.2 ≤ PRIORITY_ORDER x.2 from
      h z (List.mem_cons_self z zs))]

/-- The stable sort of `start` (line 124), applied to a sorted list with one
new element appended, computes exactly the "insert the newcomer after its
priority class" operation. -/
theorem sortByPrio_append_single (l : List (Nat × TaskPriority)) (x : Nat × TaskPriority)
    (h : l.Pairwise rankLe) : sortByPrio (l ++ [x]) = insertNew x l := by
  induction l with
  | nil => rfl
  | cons y ys ih =>
    obtain ⟨hy, hys⟩ := List.pairwise_cons.mp h
    rw [List.cons_append]
    rw [show sortByPrio (y :: (ys ++ [x])) = insertByPrio y (sortByPrio (ys ++ [x])) from rfl]
    rw [ih hys]
    by_cases hxy : PRIORITY_ORDER y.2 ≤ PRIORITY_ORDER x.2
    · rw [show insertNew x (y :: ys) = y :: insertNew x ys from by
        simp only [insertNew]; rw [if_pos hxy]]
      refine insertByPrio_front y (insertNew x ys) ?_
      intro z hz
      rcases (mem_insertNew x z ys).mp hz with rfl | hz'
      · exact hxy
      · exact hy z hz'
    · rw [show insertNew x (y :: ys) = x :: y :: ys from by
        simp only [insertNew]; rw [if_neg hxy]]
      rw [insertNew_front x ys (fun z hz hzx => hxy (le_trans (hy z hz) hzx))]
      simp only [insertByPrio]
      rw [if_neg hxy]
      rw [insertByPrio_front y ys hy]

/-- Inserting a freshly numbered entry keeps the queue sorted in dispatch
order. -/
theorem pairwise_insertNew (x : Nat × TaskPriority) (l : List (Nat × TaskPriority))
    (hl : l.Pairwise queueLe) (hb : ∀ z ∈ l, z.1 < x.1) :
    (insertNew x l).Pairwise queueLe := by
  induction l with
  | nil => simp [insertNew]
  | cons y ys ih =>
    obtain ⟨hy, hys⟩ := List.pairwise_cons.mp hl
    by_cases hcond : PRIORITY_ORDER y.2 ≤ PRIORITY_ORDER x.2
    · rw [show insertNew x (y :: ys) = y :: insertNew x ys from by
        simp only [insertNew]; rw [if_pos hcond]]
      rw [List.pairwise_cons]
      refine ⟨?_, ih hys (fun z hz => hb z (List.mem_cons_of_mem y hz))⟩
      intro z hz
      rcases (mem_insertNew x z ys).mp hz with rfl | hz'
      · rcases lt_or_eq_of_le hcond with hlt | heq
        · exact Or.inl hlt
        · exact Or.inr ⟨heq, hb y (List.mem_cons_self y ys)⟩
      · exact hy z hz'
    · rw [show insertNew x (y :: ys) = x :: y :: ys from by
        simp only [insertNew]; rw [if_neg hcond]]
      rw [List.pairwise_cons]
      refine ⟨?_, hl⟩
      intro z hz
      rcases List.mem_cons.mp hz with rfl | hz'
      · exact Or.inl (Nat.lt_of_not_le hcond)
      · exact Or.inl (Nat.lt_of_lt_of_le (Nat.lt_of_not_le hcond)
          (queueLe_rankLe y z (hy z hz')))

theorem queueInv_of_sublist (s s' : RunnerState)
    (hq : s'.pendingQueue.Sublist s.pendingQueue) (hn : s'.nextId = s.nextId)
    (h : QueueInv s) : QueueInv s' :=
  ⟨List.Pairwise.sublist hq h.1, fun e he => hn ▸ h.2 e (hq.subset he)⟩

theorem queueInv_of_eq (s s' : RunnerState) (hq : s'.pendingQueue = s.pendingQueue)
    (hn : s'.nextId = s.nextId) (h : QueueInv s) : QueueInv s' :=
  ⟨hq.symm ▸ h.1, fun e he => hn.symm ▸ h.2 e (hq ▸ he)⟩

theorem queueSub_drainQueue (s : RunnerState) :
    (drainQueue s).pendingQueue.Sublist s.pendingQueue
    ∧ (drainQueue s).nextId = s.nextId := by
  obtain ⟨k, hk⟩ := drainQueue_pendingQueue_suffix s
  refine ⟨?_, nextId_drainQueue s⟩
  rw [hk]
  exact List.drop_sublist _ _

theorem nextId_enqueueInjection (s : RunnerState) (id : Nat) (m : String)
    (ty : InjectionType) :
    (enqueueInjection s id m ty).nextId = s.nextId := by
  unfold enqueueInjection
  rcases h : s.injections with _ | q <;> simp [h]

theorem queueStable_handleResourceLimit (s : RunnerState) (id : Nat) (lt : String) :
    (handleResourceLimit s id lt).pendingQueue = s.pendingQueue
    ∧ (handleResourceLimit s id lt).nextId = s.nextId := by
  unfold handleResourceLimit
  rcases h : getTask s id with _ | t
  · exact ⟨rfl, rfl⟩
  · simp only [h]
    split
    · exact ⟨rfl, rfl⟩
    · exact ⟨rfl, rfl⟩

theorem queueStable_toolExecutedMain (s : RunnerState) (id : Nat) :
    (toolExecutedMain s id).pendingQueue = s.pendingQueue
    ∧ (toolExecutedMain s id).nextId = s.nextId := by
  unfold toolExecutedMain
  rcases h : getTask (updateTask s id (fun t =>
      { t with resourceUsage := { t.resourceUsage with
          toolCalls := t.resourceUsage.toolCalls + 1 } })) id with _ | t
  · simp only [h]
    exact ⟨rfl, rfl⟩
  · simp only [h]
    rcases hm : t.resourceLimits.maxToolCalls with _ | m
    · exact ⟨rfl, rfl⟩
    · simp only []
      split
      · exact queueStable_handleResourceLimit _ _ _
      · exact ⟨rfl, rfl⟩

theorem queueStable_stepCompleteMain (s : RunnerState) (id : Nat) :
    (stepCompleteMain s id).pendingQueue = s.pendingQueue
    ∧ (stepCompleteMain s id).nextId = s.nextId := by
  unfold stepCompleteMain
  rcases h : getTask (updateTask s id (fun t =>
      { t with resourceUsage := { t.resourceUsage with
          steps := t.resourceUsage.steps + 1 } })) id with _ | t
  · simp only [h]
    exact ⟨rfl, rfl⟩
  · simp only [h]
    rcases hm : t.resourceLimits.maxSteps with _ | m
    · exact ⟨rfl, rfl⟩
    · simp only []
      split
      · exact queueStable_handleResourceLimit _ _ _
      · exact ⟨rfl, rfl⟩

theorem queueStable_handleIdleTimeout (s : RunnerState) (id : Nat) :
    (handleIdleTimeout s id).pendingQueue = s.pendingQueue
    ∧ (handleIdleTimeout s id).nextId = s.nextId := by
  unfold handleIdleTimeout
  rcases h : getTask s id with _ | t
  · exact ⟨rfl, rfl⟩
  · simp only [h]
    split
    · exact ⟨rfl, rfl⟩
    · exact ⟨rfl, rfl⟩

theorem queueStable_sendMessage (s : RunnerState) (id : Nat) (m : String) :
    (sendMessage s id m).2.pendingQueue = s.pendingQueue
    ∧ (sendMessage s id m).2.nextId = s.nextId := by
  unfold sendMessage
  split
  · rcases h : getTask s id with _ | t
    · exact ⟨rfl, rfl⟩
    · simp only [h]
      split
      · exact ⟨rfl, rfl⟩
      · exact ⟨rfl, rfl⟩
  · exact ⟨rfl, rfl⟩

theorem queueStable_chatBegin (s : RunnerState) (id : Nat) :
    (chatBegin s id).2.pendingQueue = s.pendingQueue
    ∧ (chatBegin s id).2.nextId = s.nextId := by
  unfold chatBegin
  rcases h : getTask s id with _ | t
  · exact ⟨rfl, rfl⟩
  · simp only [h]
    split
    · exact ⟨rfl, rfl⟩
    · split
      · exact ⟨rfl, rfl⟩
      · exact ⟨rfl, rfl⟩

theorem queueStable_chatAsyncFinishOk (s : RunnerState) (id : Nat) (text : String) :
    (chatAsyncFinishOk s id text).pendingQueue = s.pendingQueue
    ∧ (chatAsyncFinishOk s id text).nextId = s.nextId := by
  unfold chatAsyncFinishOk
  rcases h : getTask (updateTask s id (fun t =>
      { t with status := .completed, result := some text })) id with _ | t
  · simp only [h]
    exact ⟨rfl, rfl⟩
  · simp only [h]
    exact ⟨pendingQueue_enqueueInjection _ _ _ _, nextId_enqueueInjection _ _ _ _⟩

theorem queueStable_chatAsyncFinishErr (s : RunnerState) (id : Nat) (prev : TaskStatus)
    (m : String) :
    (chatAsyncFinishErr s id prev m).pendingQueue = s.pendingQueue
    ∧ (chatAsyncFinishErr s id prev m).nextId = s.nextId := by
  unfold chatAsyncFinishErr
  rcases h : getTask (updateTask s id (fun t =>
      { t with status := prev, error := some m })) id with _ | t
  · simp only [h]
    exact ⟨rfl, rfl⟩
  · simp only [h]
    exact ⟨pendingQueue_enqueueInjection _ _ _ _, nextId_enqueueInjection _ _ _ _⟩

theorem queueSub_cancel (s : RunnerState) (id : Nat) (reason : Option String) :
    (cancel s id reason).2.pendingQueue.Sublist s.pendingQueue
    ∧ (cancel s id reason).2.nextId = s.nextId := by
  unfold cancel
  rcases h : getTask s id with _ | t
  · exact ⟨List.Sublist.refl _, rfl⟩
  · simp only [h]
    split
    · rcases h2 : getTask (updateTask
          { s with pendingQueue := s.pendingQueue.filter (fun q => q.1 != id) } id
          (fun u => { u with status := .cancelled, cancelReason := reason })) id with _ | u
      · simp only [h2]
        exact ⟨List.filter_sublist _, rfl⟩
      · simp only [h2]
        constructor
        · rw [pendingQueue_enqueueInjection]
          exact List.filter_sublist _
        · exact nextId_enqueueInjection _ _ _ _
    · split
      · exact ⟨List.Sublist.refl _, rfl⟩
      · exact ⟨List.Sublist.refl _, rfl⟩

theorem pendingQueue_finishStatus (s : RunnerState) (id : Nat) (o : RunOutcome) :
    (finishStatus s id o).pendingQueue = s.pendingQueue := by
  cases o <;> rfl

theorem nextId_finishStatus (s : RunnerState) (id : Nat) (o : RunOutcome) :
    (finishStatus s id o).nextId = s.nextId := by
  cases o <;> rfl

theorem pendingQueue_finishKeepAlive (s : RunnerState) (id : Nat) :
    (finishKeepAlive s id).pendingQueue = s.pendingQueue := by
  unfold finishKeepAlive
  rcases h : getTask s id with _ | t
  · rfl
  · simp only [h]
    split <;> rfl

theorem nextId_finishKeepAlive (s : RunnerState) (id : Nat) :
    (finishKeepAlive s id).nextId = s.nextId := by
  unfold finishKeepAlive
  rcases h : getTask s id with _ | t
  · rfl
  · simp only [h]
    split <;> rfl

theorem pendingQueue_finishInject (s : RunnerState) (id : Nat) :
    (finishInject s id).pendingQueue = s.pendingQueue := by
  unfold finishInject
  rcases h : getTask s id with _ | t
  · rfl
  · simp only [h]
    exact pendingQueue_enqueueInjection _ _ _ _

theorem nextId_finishInject (s : RunnerState) (id : Nat) :
    (finishInject s id).nextId = s.nextId := by
  unfold finishInject
  rcases h : getTask s id with _ | t
  · rfl
  · simp only [h]
    exact nextId_enqueueInjection _ _ _ _

theorem queueSub_finishRun (s : RunnerState) (id : Nat) (o : RunOutcome) :
    (finishRun s id o).pendingQueue.Sublist s.pendingQueue
    ∧ (finishRun s id o).nextId = s.nextId := by
  have key : ∀ s2 : RunnerState, s2.pendingQueue = s.pendingQueue → s2.nextId = s.nextId →
      (drainQueue s2).pendingQueue.Sublist s.pendingQueue
      ∧ (drainQueue s2).nextId = s.nextId := by
    intro s2 hp hn
    obtain ⟨h1, h2⟩ := queueSub_drainQueue s2
    exact ⟨hp ▸ h1, h2.trans hn⟩
  refine key _ ?_ ?_
  · rw [pendingQueue_finishInject]
    show (finishKeepAlive (finishStatus s id o) id).pendingQueue = s.pendingQueue
    rw [pendingQueue_finishKeepAlive, pendingQueue_finishStatus]
  · rw [nextId_finishInject]
    show (finishKeepAlive (finishStatus s id o) id).nextId = s.nextId
    rw [nextId_finishKeepAlive, nextId_finishStatus]

/-- `start` preserves the queue invariant: the freshly appended entry is
re-sorted into place stably, and the drain only pops heads. -/
theorem queueInv_startTask (s : RunnerState) (tid p d : String) (o : Option StartOpts)
    (h : QueueInv s) : QueueInv (startTask s tid p d o).2 := by
  have key : ∀ pr : TaskPriority, ∀ s2 : RunnerState,
      s2.pendingQueue = sortByPrio (s.pendingQueue ++ [(s.nextId, pr)]) →
      s2.nextId = s.nextId + 1 → QueueInv (drainQueue s2) := by
    intro pr s2 hp hn
    have hsorted : s.pendingQueue.Pairwise rankLe :=
      h.1.imp (fun hab => queueLe_rankLe _ _ hab)
    have hins : s2.pendingQueue = insertNew (s.nextId, pr) s.pendingQueue := by
      rw [hp, sortByPrio_append_single _ _ hsorted]
    obtain ⟨hsub, hnn⟩ := queueSub_drainQueue s2
    constructor
    · refine List.Pairwise.sublist hsub ?_
      rw [hins]
      exact pairwise_insertNew _ _ h.1 (fun z hz => h.2 z hz)
    · intro e he
      have he2 : e ∈ s2.pendingQueue := hsub.subset he
      rw [hins] at he2
      rw [hnn, hn]
      rcases (mem_insertNew _ e _).mp he2 with rfl | hz
      · exact Nat.lt_succ_self _
      · exact Nat.lt_succ_of_lt (h.2 e hz)
  exact key ((o.bind (fun x => x.priority)).getD .normal) _ rfl rfl

/-- Every runner operation preserves the queue invariant. -/
theorem queueInv_step (s s' : RunnerState) (hstep : Step s s') (h : QueueInv s) :
    QueueInv s' := by
  cases hstep with
  | startStep tid p d o => exact queueInv_startTask s tid p d o h
  | cancelStep id r =>
    obtain ⟨h1, h2⟩ := queueSub_cancel s id r
    exact queueInv_of_sublist _ _ h1 h2 h
  | finishRunStep id o hg =>
    obtain ⟨h1, h2⟩ := queueSub_finishRun s id o
    exact queueInv_of_sublist _ _ h1 h2 h
  | toolMainStep id =>
    obtain ⟨h1, h2⟩ := queueStable_toolExecutedMain s id
    exact queueInv_of_eq _ _ h1 h2 h
  | stepMainStep id =>
    obtain ⟨h1, h2⟩ := queueStable_stepCompleteMain s id
    exact queueInv_of_eq _ _ h1 h2 h
  | tokenMainStep id delta => exact queueInv_of_eq _ _ rfl rfl h
  | idleTimeoutStep id =>
    obtain ⟨h1, h2⟩ := queueStable_handleIdleTimeout s id
    exact queueInv_of_eq _ _ h1 h2 h
  | sendMessageStep id instr =>
    obtain ⟨h1, h2⟩ := queueStable_sendMessage s id instr
    exact queueInv_of_eq _ _ h1 h2 h
  | chatBeginStep id hg =>
    obtain ⟨h1, h2⟩ := queueStable_chatBegin s id
    exact queueInv_of_eq _ _ h1 h2 h
  | toolChatStep id => exact queueInv_of_eq _ _ rfl rfl h
  | tokenChatStep id delta => exact queueInv_of_eq _ _ rfl rfl h
  | chatAsyncOkStep id text hg =>
    obtain ⟨h1, h2⟩ := queueStable_chatAsyncFinishOk s id text
    exact queueInv_of_eq _ _ h1 h2 h
  | chatAsyncErrStep id prev msg hg hp =>
    obtain ⟨h1, h2⟩ := queueStable_chatAsyncFinishErr s id prev msg
    exact queueInv_of_eq _ _ h1 h2 h
  | chatSyncOkStep id text hg => exact queueInv_of_eq _ _ rfl rfl h
  | chatSyncErrStep id prev hg hp => exact queueInv_of_eq _ _ rfl rfl h

theorem queueInv_reachable (a b c d : Nat) (s : RunnerState)
    (h : Reachable (initState a b c d) s) : QueueInv s := by
  induction h with
  | refl => exact ⟨List.Pairwise.nil, fun e he => absurd he (List.not_mem_nil e)⟩
  | tail hr hstep ih => exact queueInv_step _ _ hstep ih

/-- C6: the pending queue of every reachable runner state is sorted in
dispatch order — strictly by priority rank, FIFO (by creation id) within a
priority class; the stable re-sort in `start` places a new entry exactly
after its priority class; and `drainQueue` dispatches by popping the head
of that list while below `maxConcurrent`, stopping at capacity.  Hence
every queued high task is dispatched before every queued normal task,
which precedes every queued low task, FIFO within each class. -/
theorem C6_priority_fifo_dispatch :
    (∀ a b c d s, Reachable (initState a b c d) s →
      s.pendingQueue.Pairwise queueLe)
    ∧ (∀ (l : List (Nat × TaskPriority)) (x : Nat × TaskPriority), l.Pairwise rankLe →
      sortByPrio (l ++ [x]) = insertNew x l)
    ∧ (∀ s q rest, runningCount s < s.maxConcurrent → s.pendingQueue = q :: rest →
      drainQueue s = drainQueue (dispatch { s with pendingQueue := rest } q.1))
    ∧ (∀ s : RunnerState, ¬ runningCount s < s.maxConcurrent → drainQueue s = s) := by
  refine ⟨?_, ?_, ?_, ?_⟩
  · intro a b c d s h
    exact (queueInv_reachable a b c d s h).1
  · intro l x h
    exact sortByPrio_append_single l x h
  · intro s q rest hlt hp
    exact drainQueue_eq_cons s q rest hlt hp
  · intro s h
    exact drainQueue_eq_stop s h

/-- Witness for C6: in a concrete runner (capacity 0, so nothing is
dispatched), a low-priority task started first and a high-priority task
started second end up queued high-first, and the pending list is sorted in
dispatch order. -/
theorem C6_priority_fifo_dispatch_witness :
    c6TraceB.pendingQueue.Pairwise queueLe
    ∧ sortByPrio ([(0, TaskPriority.low)] ++ [(1, TaskPriority.high)]) =
      insertNew (1, TaskPriority.high) [(0, TaskPriority.low)] := by
  constructor
  · refine C6_priority_fifo_dispatch.1 0 120000 200 50 c6TraceB ?_
    have h1 : Step (initState 0 120000 200 50) c6TraceA :=
      Step.startStep (initState 0 120000 200 50) "executor" "p1" "d1" (some (prioOpts .low))
    have h2 : Step c6TraceA c6TraceB :=
      Step.startStep c6TraceA "executor" "p2" "d2" (some (prioOpts .high))
    exact Relation.ReflTransGen.tail (Relation.ReflTransGen.single h1) h2
  · exact C6_priority_fifo_dispatch.2.1 [(0, TaskPriority.low)] (1, TaskPriority.high)
      (by simp)

end KodeOrch
